import Mathlib

/-!
Verification of the field-sensitive memory model of a whole-program static
analyzer.  The definitions below are shallow embeddings of the C++ sources:
the points-to set wrapper (PtsSet.h), the node factory (NodeFactory.h and
NodeFactory.cc), the struct layout analyzer (StructAnalyzer.h and
StructAnalyzer.cc) and the model populator helpers (PointTo.cc).

The file is organised as definitions first, then the theorems about them.
-/

namespace KA

/-!
## Points-to sets (PtsSet.h)

AndersPtsSet wraps an llvm SparseBitVector.  We model the sparse bit
vector by the set of bit positions of a natural number; test,
test_and_set and bitwise or are the corresponding operations on that
number (test_and_set returns true iff the bit was newly set, and the
in-place or returns true iff the left operand changed).
-/

structure AndersPtsSet where
  bits : Nat
deriving DecidableEq

namespace AndersPtsSet

/-- The empty set, state of a default-constructed bit vector. -/
def empty : AndersPtsSet := ⟨0⟩

/-- has(idx) = bitvec.test(idx)  (PtsSet.h lines 15 to 17). -/
def has (s : AndersPtsSet) (idx : Nat) : Bool := s.bits.testBit idx

/-- insert(idx) = bitvec.test_and_set(idx): set the bit, report whether it was
newly set (PtsSet.h lines 19 to 21). -/
def insert (s : AndersPtsSet) (idx : Nat) : AndersPtsSet × Bool :=
  (⟨s.bits ||| (2 ^ idx)⟩, !(s.bits.testBit idx))

/-- unionWith(other) = (bitvec |= other.bitvec): bitwise or, reporting whether
the receiver changed (PtsSet.h lines 44 to 47). -/
def unionWith (s other : AndersPtsSet) : AndersPtsSet × Bool :=
  (⟨s.bits ||| other.bits⟩, decide (s.bits ||| other.bits ≠ s.bits))

/-- contains(other): superset test (PtsSet.h lines 34 to 37). -/
def contains (s other : AndersPtsSet) : Bool :=
  decide (s.bits ||| other.bits = s.bits)

/-- isEmpty() (PtsSet.h lines 57 to 59). -/
def isEmpty (s : AndersPtsSet) : Bool := decide (s.bits = 0)

end AndersPtsSet

/-!
## The node factory (NodeFactory.h and NodeFactory.cc)

Nodes live in an append-only vector and are identified by their position
in the vector (the C++ AndersNode stores its index as a field, but the
index always equals the position the node was pushed at, so the field is
redundant and dropped here).  The llvm Value pointers that key the side
maps are abstracted by a type K with decidable equality: opaque ids for
globals, allocas and call sites, and constant expressions for the
constant-resolution layer.  Side maps are association lists where a new
binding is consed on the front; the code never overwrites a present key
through these operations, so lookup order is immaterial.
-/

inductive NType where
  | value
  | obj
deriving DecidableEq

structure ANode (K : Type) where
  ty : NType
  val : Option K
  offset : Nat
  isUnion : Bool
  isHeap : Bool
  mergeTarget : Nat
deriving DecidableEq

/-- Association list lookup used for the DenseMap members. -/
def alookup {K V : Type} [DecidableEq K] : List (K × V) → K → Option V
  | [], _ => none
  | (k, v) :: rest, key => if key = k then some v else alookup rest key

structure NFState (K : Type) where
  nodes : List (ANode K)
  valueNodeMap : List (K × Nat)
  objNodeMap : List (K × Nat)
  returnMap : List (K × Nat)
  varargMap : List (K × Nat)
  gepMap : List ((Nat × Nat) × Nat)
  gepNodeMap : List (Nat × (Nat × Nat))
deriving DecidableEq

/-- The reserved invalid index, the largest 32-bit unsigned int. -/
def InvalidIndex : Nat := 4294967295

/-- Special node indices (NodeFactory.h lines 90 to 94). -/
def UniversalPtrIndex : Nat := 0

def UniversalObjIndex : Nat := 1

def NullPtrIndex : Nat := 2

def NullObjectIndex : Nat := 3

def ConstantIntIndex : Nat := 4

namespace NFState

variable {K : Type} [DecidableEq K]

def numNodes (s : NFState K) : Nat := s.nodes.length

def defaultNode : ANode K :=
  ⟨NType.value, none, 0, false, false, 0⟩

def nodeAt (s : NFState K) (i : Nat) : ANode K := s.nodes.getD i defaultNode

/-- The factory constructor (NodeFactory.cc lines 31 to 46): five reserved
nodes, universal ptr, universal obj, null ptr, null obj, constant int obj. -/
def initState (K : Type) [DecidableEq K] : NFState K :=
  { nodes :=
      [ ⟨NType.value, none, 0, false, false, 0⟩,
        ⟨NType.obj, none, 0, false, false, 1⟩,
        ⟨NType.value, none, 0, false, false, 2⟩,
        ⟨NType.obj, none, 0, false, false, 3⟩,
        ⟨NType.obj, none, 0, false, false, 4⟩ ],
    valueNodeMap := [], objNodeMap := [], returnMap := [], varargMap := [],
    gepMap := [], gepNodeMap := [] }

/-- createValueNode (NodeFactory.cc lines 48 to 57).  The duplicate-mapping
assert makes a second insertion for the same value fatal, modelled by none. -/
def createValueNode (s : NFState K) (val : Option K) : Option (Nat × NFState K) :=
  let nextIdx := s.nodes.length
  let nodes2 := s.nodes ++ [⟨NType.value, val, 0, false, false, nextIdx⟩]
  match val with
  | none => some (nextIdx, { s with nodes := nodes2 })
  | some v =>
    match alookup s.valueNodeMap v with
    | some _ => none
    | none =>
      some (nextIdx, { s with nodes := nodes2,
                              valueNodeMap := (v, nextIdx) :: s.valueNodeMap })

/-- createObjectNode for a source value (NodeFactory.cc lines 59 to 69).  Note
the push_back happens before the objNodeMap lookup: when the value already has
an object node the existing index is returned but the vector has grown. -/
def createObjectNode (s : NFState K) (val : Option K) (uo heap : Bool) :
    Nat × NFState K :=
  let nextIdx := s.nodes.length
  let nodes2 := s.nodes ++ [⟨NType.obj, val, 0, uo, heap, nextIdx⟩]
  match val with
  | none => (nextIdx, { s with nodes := nodes2 })
  | some v =>
    match alookup s.objNodeMap v with
    | some j => (j, { s with nodes := nodes2 })
    | none =>
      (nextIdx, { s with nodes := nodes2,
                         objNodeMap := (v, nextIdx) :: s.objNodeMap })

/-- createObjectNode for an offset into a base object (NodeFactory.cc lines 71
to 80).  The asserts require a nonzero offset and that the fresh index equals
base plus offset; assert failure is fatal, modelled by none. -/
def createObjectNodeOfs (s : NFState K) (base offset : Nat) (uo heap : Bool) :
    Option (Nat × NFState K) :=
  if offset = 0 then none
  else if s.nodes.length = base + offset then
    some (base + offset,
          { s with nodes :=
              s.nodes ++ [⟨NType.obj, none, offset, uo, heap, base + offset⟩] })
  else none

/-- createReturnNode (NodeFactory.cc lines 82 to 90). -/
def createReturnNode (s : NFState K) (f : K) : Option (Nat × NFState K) :=
  let nextIdx := s.nodes.length
  match alookup s.returnMap f with
  | some _ => none
  | none =>
    some (nextIdx, { s with nodes := s.nodes ++ [⟨NType.value, some f, 0, false, false, nextIdx⟩],
                            returnMap := (f, nextIdx) :: s.returnMap })

/-- createVarargNode (NodeFactory.cc lines 92 to 100); the vararg node is an
object node. -/
def createVarargNode (s : NFState K) (f : K) : Option (Nat × NFState K) :=
  let nextIdx := s.nodes.length
  match alookup s.varargMap f with
  | some _ => none
  | none =>
    some (nextIdx, { s with nodes := s.nodes ++ [⟨NType.obj, some f, 0, false, false, nextIdx⟩],
                            varargMap := (f, nextIdx) :: s.varargMap })

/-- mergeNode (NodeFactory.cc lines 287 to 290): point the merge target of n1
at n0, after bounds asserts. -/
def mergeNode (s : NFState K) (n0 n1 : Nat) : Option (NFState K) :=
  if n0 < s.nodes.length ∧ n1 < s.nodes.length then
    some { s with nodes := s.nodes.set n1 { s.nodes.getD n1 defaultNode with mergeTarget := n0 } }
  else none

/-- isObjectNode (NodeFactory.h lines 154 to 156); out-of-bounds access throws
in the C++ vector, folded into the bounds conjunct here. -/
def isObjectNode (s : NFState K) (i : Nat) : Bool :=
  decide (i < s.numNodes) && decide ((s.nodeAt i).ty = NType.obj)

/-- getOffsetObjectNode (NodeFactory.h lines 167 to 179): a union base is
returned unchanged, otherwise the node at base plus offset must be an object
node whose recorded offset matches; assert failure is fatal (none). -/
def getOffsetObjectNode (s : NFState K) (n : Nat) (offset : Nat) : Option Nat :=
  if n ≥ s.numNodes then none
  else if (s.nodeAt n).isUnion then some n
  else if isObjectNode s (n + offset) = true then
    if (s.nodeAt n).offset + offset = (s.nodeAt (n + offset)).offset then some (n + offset)
    else none
  else none

/-- Forward scan of getObjectSize (NodeFactory.h lines 181 to 192), expressed
on the suffix of the node vector after the start node. -/
def chainLen : List (ANode K) → Nat → Nat
  | [], _ => 0
  | x :: xs, off =>
    if x.ty = NType.obj ∧ x.offset = off + 1 then 1 + chainLen xs (off + 1) else 0

/-- getObjectSize (NodeFactory.h lines 181 to 192): walk forward while the
recorded offsets keep increasing by one, return the final offset plus one. -/
def getObjectSize (s : NFState K) (i : Nat) : Nat :=
  (s.nodeAt i).offset + chainLen (s.nodes.drop (i + 1)) (s.nodeAt i).offset + 1

end NFState

/-!
## Union-find over merge targets (NodeFactory.cc lines 287 to 316)

The mergeTarget column of the node vector is a parent array (the spec
design notes call for an explicit disjoint-set array of parent indices).
getMergeTarget follows the chain to the ultimate representative; the
non-const overload additionally repoints every visited node at the result
(path compression).  The C++ while loops are modelled with explicit fuel:
a run that would not terminate (a merge cycle) returns no answer at any
fuel.
-/

namespace MergeModel

/-- Parent lookup; out-of-range reads answer the index itself (the C++
asserts indices in range, and the theorems carry the bounds). -/
def pget (l : List Nat) (i : Nat) : Nat := l.getD i i

/-- The const getMergeTarget (NodeFactory.cc lines 310 to 316): follow the
chain without modifying it. -/
def findRoot : Nat → List Nat → Nat → Option Nat
  | 0, _, _ => none
  | fuel + 1, l, i => if pget l i = i then some i else findRoot fuel l (pget l i)

/-- The compressing getMergeTarget (NodeFactory.cc lines 292 to 308): resolve
the representative, then repoint every node on the visited path at it.  All
parent reads happen on the incoming array, all writes on the way out, exactly
as the C++ loop reads the whole path before the compression writes. -/
def findCompress : Nat → List Nat → Nat → Option (Nat × List Nat)
  | 0, _, _ => none
  | fuel + 1, l, i =>
    if pget l i = i then some (i, l)
    else
      match findCompress fuel l (pget l i) with
      | none => none
      | some (r, l2) => some (r, l2.set i r)

/-- mergeNode (NodeFactory.cc lines 287 to 290) on the parent array. -/
def mergeP (l : List Nat) (n0 n1 : Nat) : Option (List Nat) :=
  if n0 < l.length ∧ n1 < l.length then some (l.set n1 n0) else none

/-- Node i has ultimate representative r: some fuel suffices for the
non-mutating walk. -/
def Root (l : List Nat) (i r : Nat) : Prop := ∃ fuel, findRoot fuel l i = some r

/-- A sequence of compressing getMergeTarget queries threaded through the
parent array. -/
def runQueries (fuel : Nat) : List Nat → List Nat → Option (List Nat)
  | l, [] => some l
  | l, q :: qs =>
    match findCompress fuel l q with
    | none => none
    | some (_, l2) => runQueries fuel l2 qs

end MergeModel

/-- The mergeTarget column of the node vector. -/
def mergeTargets {K : Type} [DecidableEq K] (s : NFState K) : List Nat :=
  s.nodes.map (fun n => n.mergeTarget)

/-!
## Object-node chains and reachable factory states (PointTo.cc)

The offset form of createObjectNode is called from exactly two places in
the code, the field loop of processStruct (PointTo.cc lines 67 to 72) and
the field loop of createNodeForHeapObject (PointTo.cc lines 198 to 205);
both first create the node-0 object for the source value, then one offset
node per remaining expanded field, and both skip the whole creation when
the value already has an object node.  createObjectChain captures that
discipline; Reachable enumerates the factory states produced by the
populator operations.
-/

/-- The field loop: create count offset nodes for fields i, i+1, ... of the
object at base; flags gives the per-field isFieldUnion value. -/
def chainLoop {K : Type} [DecidableEq K] :
    Nat → NFState K → Nat → Nat → (Nat → Bool) → Bool → Option (NFState K)
  | 0, s, _, _, _, _ => some s
  | cnt + 1, s, base, i, flags, heap =>
    match s.createObjectNodeOfs base i (flags i) heap with
    | none => none
    | some (_, s2) => chainLoop cnt s2 base (i + 1) flags heap

/-- Object creation pattern of processStruct and createNodeForHeapObject:
if the value already has an object node return it unchanged, otherwise
create the node-0 object followed by size - 1 offset nodes. -/
def createObjectChain {K : Type} [DecidableEq K] (s : NFState K) (v : K)
    (flags : Nat → Bool) (heap : Bool) (size : Nat) : Option (Nat × NFState K) :=
  match alookup s.objNodeMap v with
  | some j => some (j, s)
  | none =>
    let p := s.createObjectNode (some v) (flags 0) heap
    match chainLoop (size - 1) p.2 p.1 1 flags heap with
    | none => none
    | some s3 => some (p.1, s3)

/-- Factory states reachable through the populator operations: the initial
five-node state, value nodes, single object nodes, object-node chains,
return and vararg nodes, and merges. -/
inductive Reachable : NFState Nat → Prop
  | init : Reachable (NFState.initState Nat)
  | valueNode {s : NFState Nat} {v : Option Nat} {i : Nat} {s2 : NFState Nat} :
      Reachable s → NFState.createValueNode s v = some (i, s2) → Reachable s2
  | objNode {s : NFState Nat} (v : Option Nat) (uo heap : Bool) :
      Reachable s → Reachable (NFState.createObjectNode s v uo heap).2
  | objChain {s : NFState Nat} {v : Nat} {flags : Nat → Bool} {heap : Bool}
      {size i : Nat} {s2 : NFState Nat} :
      Reachable s → createObjectChain s v flags heap size = some (i, s2) →
      Reachable s2
  | returnNode {s : NFState Nat} {f i : Nat} {s2 : NFState Nat} :
      Reachable s → NFState.createReturnNode s f = some (i, s2) → Reachable s2
  | varargNode {s : NFState Nat} {f i : Nat} {s2 : NFState Nat} :
      Reachable s → NFState.createVarargNode s f = some (i, s2) → Reachable s2
  | merge {s : NFState Nat} {n0 n1 : Nat} {s2 : NFState Nat} :
      Reachable s → NFState.mergeNode s n0 n1 = some s2 → Reachable s2

/-- The base contiguity property of a state: every object node with positive
recorded offset o sits o positions after a valid object node with recorded
offset 0. -/
def contigBase (s : NFState Nat) : Prop :=
  ∀ n, NFState.isObjectNode s n = true → 0 < (s.nodeAt n).offset →
    (s.nodeAt n).offset ≤ n
    ∧ NFState.isObjectNode s (n - (s.nodeAt n).offset) = true
    ∧ (s.nodeAt (n - (s.nodeAt n).offset)).offset = 0

/-- A concrete reachable state holding a three-field object chain at nodes
5, 6, 7, used to witness the contiguity theorem. -/
def chainState : NFState Nat :=
  ((createObjectChain (NFState.initState Nat) 7 (fun _ => false) false 3).getD
    (0, NFState.initState Nat)).2

/-- The nodes appended by a run of the chain loop. -/
def chainNodes {K : Type} [DecidableEq K] :
    Nat → Nat → Nat → (Nat → Bool) → Bool → List (ANode K)
  | _, _, 0, _, _ => []
  | base, i, cnt + 1, flags, heap =>
    ⟨NType.obj, none, i, flags i, heap, base + i⟩ :: chainNodes base (i + 1) cnt flags heap

/-!
## The llvm type and data layout model

LType models the llvm types the analyzer inspects: fixed-width integers,
pointers, arrays and struct types.  The uname flag on a struct stands for
the condition the code tests with isLiteral and getStructName: a
non-literal struct whose name starts with the string union.  The data
layout follows the usual non-packed rules: an integer of n bytes is
n-byte aligned, pointers are 8 bytes, a struct is aligned to the maximal
alignment of its members, member offsets are rounded up to the member's
alignment, and the allocation size is the end offset rounded up to the
struct's alignment.
-/

inductive LType where
  | int (bytes : Nat)
  | ptr
  | array (n : Nat) (elem : LType)
  | strukt (uname : Bool) (elems : List LType)

def alignUp (x a : Nat) : Nat := if a = 0 then x else ((x + a - 1) / a) * a

mutual

def tyAlign : LType → Nat
  | .int n => max n 1
  | .ptr => 8
  | .array _ t => tyAlign t
  | .strukt _ ts => listMaxAlign ts

def listMaxAlign : List LType → Nat
  | [] => 1
  | t :: ts => max (tyAlign t) (listMaxAlign ts)

end

mutual

def allocSize : LType → Nat
  | .int n => n
  | .ptr => 8
  | .array n t => n * allocSize t
  | .strukt _ ts => alignUp (structEnd ts 0) (listMaxAlign ts)

def structEnd : List LType → Nat → Nat
  | [], off => off
  | t :: ts, off => structEnd ts (alignUp off (tyAlign t) + allocSize t)

end

/-- The byte offsets assigned to the members of a struct, the model of
StructLayout getElementOffset. -/
def elemOffsets : List LType → Nat → List Nat
  | [], _ => []
  | t :: ts, off =>
    let o := alignUp off (tyAlign t)
    o :: elemOffsets ts (o + allocSize t)

/-- The while loops of StructAnalyzer.cc and PointTo.cc that treat an array
field as a single element of its type. -/
def stripArrays : LType → LType
  | .array _ t => stripArrays t
  | t => t

/-!
## StructInfo and the struct analyzer (StructAnalyzer.h and StructAnalyzer.cc)

The elementType diagnostic map and the container relationships are not
modelled (no claim reads them); all other StructInfo columns are built
exactly as addStructInfo does.  The recursions of the analyzer terminate
on the finite nesting of the input type; here they carry explicit fuel so
that the definitions stay executable, a run out of fuel answering none.
-/

structure StructInfo where
  arrayFlags : List Bool
  pointerFlags : List Bool
  unionFlags : List Bool
  fieldSize : List Nat
  offsetMap : List Nat
  fieldOffset : List Nat
  fieldRealSize : List Nat
  allocSize : Nat
deriving DecidableEq

def emptyInfo : StructInfo := ⟨[], [], [], [], [], [], [], 0⟩

/-- getExpandedSize (StructAnalyzer.h line 127). -/
def StructInfo.getExpandedSize (si : StructInfo) : Nat := si.arrayFlags.length

/-- isEmpty (StructAnalyzer.h line 129). -/
def StructInfo.isEmpty (si : StructInfo) : Bool := decide (si.fieldSize.getD 0 0 = 0)

/-- isFieldUnion (StructAnalyzer.h line 132). -/
def StructInfo.isFieldUnion (si : StructInfo) (i : Nat) : Bool := si.unionFlags.getD i false

/-- finalize (StructAnalyzer.h lines 93 to 107): store the expanded field
count in fieldSize[0] (resizing an empty vector first) and record the
allocation size. -/
def finalizeInfo (acc : StructInfo) (asize : Nat) : StructInfo :=
  let numField := acc.fieldSize.length
  { acc with
    fieldSize := if numField = 0 then [0] else numField :: acc.fieldSize.tail,
    allocSize := asize }

/-- StructLayout getElementContainingOffset: index of the last member whose
offset does not exceed the target. -/
def containingIdx (offs : List Nat) (o : Nat) : Nat :=
  (offs.filter (fun x => decide (x ≤ o))).length - 1

mutual

/-- addStructInfo (StructAnalyzer.cc lines 63 to 158).  A union-named struct
contributes a single union field; any other struct expands its members in
order through buildFieldsF. -/
def structInfoOfF : Nat → LType → Option StructInfo
  | 0, _ => none
  | _ + 1, .strukt true ts =>
    some { arrayFlags := [false], pointerFlags := [false], unionFlags := [true],
           fieldSize := [1], offsetMap := [0], fieldOffset := [0],
           fieldRealSize := [], allocSize := allocSize (.strukt true ts) }
  | fuel + 1, .strukt false ts =>
    match buildFieldsF fuel (elemOffsets ts 0) ts emptyInfo with
    | none => none
    | some acc => some (finalizeInfo acc (allocSize (.strukt false ts)))
  | _ + 1, _ => none

/-- The member loop of addStructInfo (StructAnalyzer.cc lines 100 to 148),
walking the members in sync with their layout offsets. -/
def buildFieldsF : Nat → List Nat → List LType → StructInfo → Option StructInfo
  | 0, _, _, _ => none
  | _ + 1, _, [], acc => some acc
  | _ + 1, [], _ :: _, _ => none
  | fuel + 1, off :: offs, t :: ts, acc =>
    let acc1 := { acc with fieldOffset := acc.fieldOffset ++ [off] }
    let isArr : Bool := match t with | .array _ _ => true | _ => false
    let acc2 := match t with
      | .array n e => { acc1 with fieldRealSize := acc1.fieldRealSize ++ [allocSize e * n] }
      | _ => acc1
    let sub := stripArrays t
    let acc3 := { acc2 with offsetMap := acc2.offsetMap ++ [acc2.arrayFlags.length] }
    match sub with
    | .strukt u2 ts2 =>
      match structInfoOfF fuel (.strukt u2 ts2) with
      | none => none
      | some subInfo =>
        let acc4 := { acc3 with
          fieldSize := acc3.fieldSize ++ (if subInfo.isEmpty then [] else subInfo.fieldSize),
          arrayFlags := acc3.arrayFlags ++ subInfo.arrayFlags,
          pointerFlags := acc3.pointerFlags ++ subInfo.pointerFlags,
          unionFlags := acc3.unionFlags ++ subInfo.unionFlags,
          fieldRealSize := acc3.fieldRealSize ++ subInfo.fieldRealSize }
        let acc5 := { acc4 with
          fieldOffset := acc4.fieldOffset ++
            ((subInfo.fieldOffset.filter (fun x => decide (x ≠ 0))).map (fun x => x + off)) }
        buildFieldsF fuel offs ts acc5
    | _ =>
      let isPtr : Bool := match sub with | .ptr => true | _ => false
      let acc4 := { acc3 with
        fieldSize := acc3.fieldSize ++ [1],
        arrayFlags := acc3.arrayFlags ++ [isArr],
        pointerFlags := acc3.pointerFlags ++ [isPtr],
        unionFlags := acc3.unionFlags ++ [false] }
      let acc5 := if isArr then acc4
        else { acc4 with fieldRealSize := acc4.fieldRealSize ++ [allocSize sub] }
      buildFieldsF fuel offs ts acc5

end

/-- The while loop of offsetToFieldNum (PointTo.cc lines 313 to 354),
consuming the byte offset level by level; ret accumulates the expanded field
index.  A union-named struct steps past its whole allocation size (twice, as
in the code); a byte offset that does not land on a field boundary of a
non-aggregate tail type emits a warning and stops with the index accumulated
so far. -/
def o2fLoop : Nat → LType → Int → Nat → Option Nat
  | 0, _, _, _ => none
  | fuel + 1, ty, offset, ret =>
    if offset ≤ 0 then some ret
    else
      match stripArrays ty with
      | .strukt u ts =>
        match structInfoOfF (fuel + 1) (.strukt u ts) with
        | none => none
        | some stInfo =>
          let asize : Int := Int.ofNat stInfo.allocSize
          if asize = 0 then some 0
          else
            let offset2 := offset % asize
            let idx := containingIdx (elemOffsets ts 0) offset2.toNat
            if u then
              let offset3 := offset2 - asize
              if offset3 ≤ 0 then some ret
              else
                match stInfo.offsetMap[idx]?, ts[idx]? with
                | some om, some e => o2fLoop fuel e (offset3 - asize) (ret + om)
                | _, _ => none
            else
              match stInfo.offsetMap[idx]?, ts[idx]? with
              | some om, some e =>
                o2fLoop fuel e
                  (offset2 - Int.ofNat ((elemOffsets ts 0).getD idx 0)) (ret + om)
              | _, _ => none
      | other =>
        let tsize : Int := Int.ofNat (allocSize other)
        if tsize = 0 then none
        else some ret

/-- offsetToFieldNum (PointTo.cc lines 290 to 357) on the pointee type of the
pointer argument: negative offsets and union-named or opaque pointee structs
answer field 0 before the loop. -/
def offsetToFieldNum (fuel : Nat) (elemType : LType) (offset : Int) : Option Nat :=
  if offset < 0 then some 0
  else
    match elemType with
    | .strukt true _ => some 0
    | _ => o2fLoop fuel elemType offset 0

/-!
## Heap object creation (createNodeForHeapObject, PointTo.cc lines 141 to 206)

The call instruction is abstracted by its objNodeMap key, the declared
pointee type of its result, and the pointee types of the cast users of the
result (none standing for a user that is not a cast to a pointer type).
The size argument is none when the allocator table gives no size argument,
some none when the argument is not a constant integer, and some (some z)
for a literal z.  The global maximum struct size is passed explicitly.
-/

/-- Lines 148 to 160: when the declared pointee is the byte type i8, the true
type is learned from the first user that casts the result to a pointer. -/
def heapElemType (declElem : LType) (users : List (Option LType)) : LType :=
  match declElem with
  | .int 1 => (users.findSome? id).getD declElem
  | _ => declElem

/-- The array multiplier of lines 166 to 169. -/
def arrayElemCount : LType → Nat
  | .array n t => n * arrayElemCount t
  | _ => 1

/-- The sizing phase (lines 162 to 179): the type-derived field count, the
type-derived allocation size, the union flag, and the StructInfo of a struct
pointee. -/
def heapSizing (sfuel : Nat) (declElem : LType) (users : List (Option LType)) :
    Option (Nat × Nat × Bool × Option StructInfo) :=
  let elemType := heapElemType declElem users
  let n0 := arrayElemCount elemType
  let n1 := if n0 = 0 then 1 else n0
  match stripArrays elemType with
  | .strukt u ts =>
    match structInfoOfF sfuel (.strukt u ts) with
    | none => none
    | some st => some (st.getExpandedSize, n1 * st.allocSize, u, some st)
  | _ => some (0, n1, false, none)

/-- Lines 181 to 195: a literal size argument strictly larger than the
type-derived allocation size widens the field count to the literal (after the
assert that it fits 32 bits, whose failure is fatal); a zero count falls back
to the global maximum struct size. -/
def heapMaxSize (typeMax asz : Nat) (sizeArg : Option (Option Nat))
    (maxStructSize : Nat) : Option Nat :=
  let m : Option Nat := match sizeArg with
    | some (some z) =>
      if asz < z then (if z < 4294967295 then some z else none) else some typeMax
    | _ => some typeMax
  match m with
  | none => none
  | some mv => some (if mv = 0 then maxStructSize else mv)

/-- The per-field union flag of the created heap nodes (PointTo.cc line 202). -/
def heapFieldFlags (stOpt : Option StructInfo) : Nat → Bool :=
  fun i =>
    match stOpt with
    | some st => if i < st.getExpandedSize then st.isFieldUnion i else false
    | none => false

/-- createNodeForHeapObject (PointTo.cc lines 141 to 206). -/
def createNodeForHeapObject {K : Type} [DecidableEq K] (sfuel : Nat)
    (s : NFState K) (ikey : K) (declElem : LType) (users : List (Option LType))
    (sizeArg : Option (Option Nat)) (maxStructSize : Nat) : Option (NFState K) :=
  match heapSizing sfuel declElem users with
  | none => none
  | some (typeMax, asz, isU, stOpt) =>
    match heapMaxSize typeMax asz sizeArg maxStructSize with
    | none => none
    | some maxSize =>
      match alookup s.objNodeMap ikey with
      | some _ => some s
      | none =>
        let p := s.createObjectNode (some ikey) isU true
        match chainLoop (maxSize - 1) p.2 p.1 1 (heapFieldFlags stOpt) true with
        | none => none
        | some s3 => some s3

/-!
## Constant resolution (NodeFactory.cc lines 102 to 262)

ConstV models the constant pointer expressions the resolver inspects.  The
field number of a constant GEP (computed in the code by constGEPtoFieldNum
through getGEPOffset and offsetToFieldNum) is carried directly on the gep
constructor; intConst stands for every constant whose type is not a pointer
type.  Note that a ptrtoint constant expression has integer type, so it is
answered by the non-pointer early return and the PtrToInt switch cases are
unreachable.  Globals are taken to be defined in the current module: the
cross-module declaration resolution through gobjMap and funcMap is not
modelled, a global simply resolves through valueNodeMap or objNodeMap,
answering InvalidIndex when absent.
-/

inductive ConstV where
  | intConst
  | nullPtr
  | undef
  | globalVal (g : Nat)
  | gep (base : ConstV) (fieldNum : Nat)
  | bitcast (src : ConstV)
  | intToPtr
  | ptrToInt
  | blockAddr
  | unknownConst
deriving DecidableEq

/-- isa PointerType on the constant's type: ptrtoint and plain integer
constants are not pointer-typed. -/
def ConstV.isPointerTy : ConstV → Bool
  | .intConst => false
  | .ptrToInt => false
  | _ => true

/-- getValueNodeFor on a global (NodeFactory.cc lines 107 to 122, declaration
resolution elided). -/
def globalValueNode (s : NFState ConstV) (g : Nat) : Nat :=
  (alookup s.valueNodeMap (ConstV.globalVal g)).getD InvalidIndex

/-- getObjectNodeFor on a global (NodeFactory.cc lines 196 to 221, declaration
resolution elided). -/
def globalObjNode (s : NFState ConstV) (g : Nat) : Nat :=
  (alookup s.objNodeMap (ConstV.globalVal g)).getD InvalidIndex

/-- getValueNodeForConstant (NodeFactory.cc lines 125 to 194).  Fatal paths
(assert failures, llvm_unreachable on an unhandled opcode or an unknown
constant) answer none; every other path answers the node index and the
possibly extended state. -/
def resolveValueConst : NFState ConstV → ConstV → Option (Nat × NFState ConstV)
  | s, .intConst => some (ConstantIntIndex, s)
  | s, .ptrToInt => some (ConstantIntIndex, s)
  | s, .nullPtr => some (NullPtrIndex, s)
  | s, .undef => some (NullPtrIndex, s)
  | s, .globalVal g => some (globalValueNode s g, s)
  | s, .gep base f =>
    match resolveValueConst s base with
    | none => none
    | some (bn, s1) =>
      if bn = InvalidIndex then none
      else if bn = NullObjectIndex then some (NullPtrIndex, s1)
      else if bn = UniversalObjIndex then some (UniversalPtrIndex, s1)
      else if f = 0 then some (bn, s1)
      else
        match alookup s1.gepMap (bn, f) with
        | some idx => some (idx, s1)
        | none =>
          match s1.createValueNode (some (ConstV.gep base f)) with
          | none => none
          | some (idx, s2) =>
            some (idx, { s2 with gepMap := ((bn, f), idx) :: s2.gepMap,
                                 gepNodeMap := (idx, (bn, f)) :: s2.gepNodeMap })
  | s, .bitcast src =>
    match
      (match src with
        | .globalVal g => some (globalValueNode s g, s)
        | _ => resolveValueConst s src) with
    | none => none
    | some (sn, s1) =>
      if sn = NullObjectIndex then some (NullPtrIndex, s1)
      else if sn = UniversalObjIndex then some (UniversalPtrIndex, s1)
      else some (sn, s1)
  | s, .intToPtr => some (NullPtrIndex, s)
  | s, .blockAddr => some (NullPtrIndex, s)
  | _, .unknownConst => none

/-- getObjectNodeForConstant (NodeFactory.cc lines 223 to 262); object
resolution never allocates, so no state is returned. -/
def resolveObjConst : NFState ConstV → ConstV → Option Nat
  | _, .intConst => some UniversalPtrIndex
  | _, .ptrToInt => some UniversalPtrIndex
  | _, .nullPtr => some NullObjectIndex
  | s, .globalVal g => some (globalObjNode s g)
  | s, .gep base f =>
    match resolveObjConst s base with
    | none => none
    | some bn =>
      if bn = InvalidIndex then none
      else if bn = NullObjectIndex ∨ bn = UniversalObjIndex then some bn
      else s.getOffsetObjectNode bn f
  | _, .intToPtr => some NullObjectIndex
  | s, .bitcast src => resolveObjConst s src
  | _, .blockAddr => some NullObjectIndex
  | _, .undef => none
  | _, .unknownConst => none

/-- State extension along a constant resolution: global value-node lookups
are unchanged (resolution only ever registers gep constants in valueNodeMap)
and present gepMap entries are preserved (the map only grows and never
overwrites). -/
def ConstExt (s1 s2 : NFState ConstV) : Prop :=
  (∀ g, alookup s2.valueNodeMap (ConstV.globalVal g)
      = alookup s1.valueNodeMap (ConstV.globalVal g))
  ∧ (∀ k v, alookup s1.gepMap k = some v → alookup s2.gepMap k = some v)

/-!
## Concrete states used by the witnesses
-/

/-- The struct of testable property 3: an int, a nested struct of two ints,
and an int, with 4-byte ints. -/
def structC5 : LType :=
  .strukt false [.int 4, .strukt false [.int 4, .int 4], .int 4]

/-- A state whose global 0 has value node 3 (the null object) and whose
global 1 has value node 1 (the universal object). -/
def gepWitnessState : NFState ConstV :=
  { NFState.initState ConstV with
    valueNodeMap := [(ConstV.globalVal 0, NullObjectIndex),
                     (ConstV.globalVal 1, UniversalObjIndex)] }

/-- The initial state extended with one union object node at index 5. -/
def unionWitnessState : NFState ConstV :=
  ((NFState.initState ConstV).createObjectNode none true false).2

/-- The state after a heap allocation of 3 byte-sized elements through an
allocator called with literal size 3 on an int-pointer result. -/
def heapWitnessState : NFState Nat :=
  (createNodeForHeapObject 5 (NFState.initState Nat) 0 (.int 4) []
    (some (some 3)) 7).getD (NFState.initState Nat)

/-- A state whose global 0 has an ordinary value node 9. -/
def memoWitnessBase : NFState ConstV :=
  { NFState.initState ConstV with
    valueNodeMap := [(ConstV.globalVal 0, 9)] }

/-- The state after resolving the constant GEP of global 0 at field 2 once
from memoWitnessBase. -/
def memoWitnessState : NFState ConstV :=
  ((resolveValueConst memoWitnessBase (ConstV.gep (ConstV.globalVal 0) 2)).getD
    (0, memoWitnessBase)).2

/-!
## Theorems
-/

theorem AndersPtsSet.lor_ne_self_iff (a b : Nat) :
    a ||| b ≠ a ↔ ∃ j, b.testBit j = true ∧ a.testBit j = false := by
  constructor
  · intro hne
    by_contra hno
    push_neg at hno
    apply hne
    apply Nat.eq_of_testBit_eq
    intro j
    rw [Nat.testBit_or]
    cases ha : a.testBit j with
    | true => simp
    | false =>
      cases hb : b.testBit j with
      | true => exact absurd ha (by simpa using hno j hb)
      | false => simp
  · rintro ⟨j, hb, ha⟩ heq
    have := congrArg (fun n => n.testBit j) heq
    simp only [Nat.testBit_or, hb, ha, Bool.or_true] at this
    simp at this

/-!
### Claim C9: change reporting of the points-to set
-/

/-- C9: for every points-to set s and node index i, insert(i) returns true if
and only if i was not a member of s before the call (and i is a member
afterwards), and for every set t, s.unionWith(t) returns true if and only if
the union actually changed s, that is t contained some element not already
in s. -/
theorem ptsSet_change_reporting (s t : AndersPtsSet) (i : Nat) :
    ((s.insert i).2 = true ↔ s.has i = false)
  ∧ (s.insert i).1.has i = true
  ∧ ((s.unionWith t).2 = true ↔ ∃ j, t.has j = true ∧ s.has j = false) := by
  refine ⟨?_, ?_, ?_⟩
  · simp [AndersPtsSet.insert, AndersPtsSet.has]
  · simp [AndersPtsSet.insert, AndersPtsSet.has, Nat.testBit_or,
          Nat.testBit_two_pow_self]
  · simp only [AndersPtsSet.unionWith, AndersPtsSet.has, decide_eq_true_eq]
    exact AndersPtsSet.lor_ne_self_iff s.bits t.bits

/-!
### Claim C1: repeated createObjectNode for the same source value
-/

/-- C1 (counterexample): the claim states that the node table does not grow on
the second createObjectNode call for the same source value.  On the code the
second call returns the same index (5) but the table grows from 6 to 7 nodes,
because the push_back happens before the objNodeMap lookup. -/
theorem createObjectNode_second_call_grows_cex :
    (((NFState.initState Nat).createObjectNode (some 7) false false).1 = 5)
  ∧ (((NFState.initState Nat).createObjectNode (some 7) false false).2.numNodes = 6)
  ∧ ((((NFState.initState Nat).createObjectNode (some 7) false false).2.createObjectNode
        (some 7) false false).1 = 5)
  ∧ ((((NFState.initState Nat).createObjectNode (some 7) false false).2.createObjectNode
        (some 7) false false).2.numNodes = 7) := by
  decide

/-- C1 (amended): calling createObjectNode(v, ...) a second time for the same
source value returns the same node index as the first call, but the node table
(getNumNodes) grows by exactly one orphan node on the second call, because the
node is pushed before the existing mapping is found. -/
theorem createObjectNode_idempotent_index (s : NFState Nat) (v : Nat)
    (u1 h1 u2 h2 : Bool) :
    (((s.createObjectNode (some v) u1 h1).2.createObjectNode (some v) u2 h2).1
      = (s.createObjectNode (some v) u1 h1).1)
  ∧ (((s.createObjectNode (some v) u1 h1).2.createObjectNode (some v) u2 h2).2.numNodes
      = (s.createObjectNode (some v) u1 h1).2.numNodes + 1) := by
  cases h : alookup s.objNodeMap v with
  | some j => simp [NFState.createObjectNode, NFState.numNodes, h]
  | none => simp [NFState.createObjectNode, NFState.numNodes, h, alookup]

/-!
### Union-find lemmas
-/

namespace MergeModel

theorem findRoot_mono {fuel : Nat} {l : List Nat} {i r : Nat}
    (h : findRoot fuel l i = some r) : findRoot (fuel + 1) l i = some r := by
  induction fuel generalizing i with
  | zero => simp [findRoot] at h
  | succ f ih =>
    rw [findRoot] at h
    rw [findRoot]
    by_cases hp : pget l i = i
    · simpa [hp] using h
    · rw [if_neg hp] at h ⊢
      exact ih h

theorem findRoot_le {f g : Nat} {l : List Nat} {i r : Nat}
    (hfg : f ≤ g) (h : findRoot f l i = some r) : findRoot g l i = some r := by
  induction g with
  | zero =>
    have : f = 0 := Nat.le_zero.mp hfg
    subst this; exact h
  | succ g ih =>
    rcases Nat.lt_or_ge f (g + 1) with hlt | hge
    · exact findRoot_mono (ih (Nat.lt_succ_iff.mp hlt))
    · have : f = g + 1 := Nat.le_antisymm hfg hge
      subst this; exact h

theorem root_unique {l : List Nat} {i r1 r2 : Nat}
    (h1 : Root l i r1) (h2 : Root l i r2) : r1 = r2 := by
  obtain ⟨f1, h1⟩ := h1
  obtain ⟨f2, h2⟩ := h2
  have e1 : findRoot (f1 + f2) l i = some r1 := findRoot_le (Nat.le_add_right _ _) h1
  have e2 : findRoot (f1 + f2) l i = some r2 := findRoot_le (Nat.le_add_left _ _) h2
  rw [e1] at e2
  exact Option.some.inj e2

theorem findRoot_fixed {fuel : Nat} {l : List Nat} {i r : Nat}
    (h : findRoot fuel l i = some r) : pget l r = r := by
  induction fuel generalizing i with
  | zero => simp [findRoot] at h
  | succ f ih =>
    rw [findRoot] at h
    by_cases hp : pget l i = i
    · rw [if_pos hp] at h
      cases h; exact hp
    · rw [if_neg hp] at h
      exact ih h

theorem root_step {l : List Nat} {i r : Nat} (hne : pget l i ≠ i)
    (h : Root l (pget l i) r) : Root l i r := by
  obtain ⟨f, hf⟩ := h
  exact ⟨f + 1, by rw [findRoot, if_neg hne]; exact hf⟩

theorem root_self {l : List Nat} {i : Nat} (h : pget l i = i) : Root l i i :=
  ⟨1, by rw [findRoot, if_pos h]⟩

theorem pget_set_self {l : List Nat} {x v : Nat} (hx : x < l.length) :
    pget (l.set x v) x = v := by
  simp [pget, List.getD, List.getElem?_set_self hx]

theorem pget_set_ne {l : List Nat} {x v j : Nat} (hj : j ≠ x) :
    pget (l.set x v) j = pget l j := by
  simp [pget, List.getD, List.getElem?_set_ne (fun h => hj h.symm)]

/-- Repointing a node at its own representative preserves every node's
representative. -/
theorem set_preserves_root {l : List Nat} {x r : Nat} (hxr : Root l x r) :
    ∀ j q, Root l j q → Root (l.set x r) j q := by
  intro j q hjq
  obtain ⟨f, hf⟩ := hjq
  induction f generalizing j with
  | zero => simp [findRoot] at hf
  | succ f ih =>
    by_cases hxl : x < l.length
    case neg =>
      rw [List.set_eq_of_length_le (Nat.le_of_not_lt hxl)]
      exact ⟨f + 1, hf⟩
    rw [findRoot] at hf
    by_cases hp : pget l j = j
    · rw [if_pos hp] at hf
      have hjq2 : j = q := Option.some.inj hf
      rw [← hjq2]
      by_cases hjx : j = x
      · have hpx : pget l x = x := by rw [← hjx]; exact hp
        have hrx : r = x := root_unique hxr (root_self hpx)
        exact root_self (by rw [hjx, hrx, pget_set_self hxl, ← hjx])
      · exact root_self (by rw [pget_set_ne hjx]; exact hp)
    · rw [if_neg hp] at hf
      by_cases hjx : j = x
      · have hrootlj : Root l j q := root_step hp ⟨f, hf⟩
        have hxq : Root l x q := hjx ▸ hrootlj
        have hrq : r = q := root_unique hxr hxq
        have hqroot : pget l q = q := findRoot_fixed hf
        have hqx : q ≠ x := by
          intro hcq
          apply hp
          rw [hjx, ← hcq]
          exact hqroot
        refine ⟨2, ?_⟩
        rw [findRoot]
        have hpj : pget (l.set x r) j = q := by rw [hjx, pget_set_self hxl, hrq]
        by_cases hjj : pget (l.set x r) j = j
        · rw [if_pos hjj]
          rw [hpj] at hjj
          rw [hjj]
        · rw [if_neg hjj, hpj, findRoot,
              if_pos (by rw [pget_set_ne hqx]; exact hqroot)]
      · have step : Root (l.set x r) (pget l j) q := ih _ hf
        refine root_step ?_ ?_
        · rw [pget_set_ne hjx]; exact hp
        · rw [pget_set_ne hjx]; exact step

theorem findCompress_fst : ∀ {fuel : Nat} {l l2 : List Nat} {i r : Nat},
    findCompress fuel l i = some (r, l2) → findRoot fuel l i = some r := by
  intro fuel
  induction fuel with
  | zero => intro l l2 i r h; simp [findCompress] at h
  | succ f ih =>
    intro l l2 i r h
    rw [findCompress] at h
    rw [findRoot]
    by_cases hp : pget l i = i
    · rw [if_pos hp] at h
      rw [if_pos hp]
      cases h
      rfl
    · rw [if_neg hp] at h
      rw [if_neg hp]
      cases hrec : findCompress f l (pget l i) with
      | none => rw [hrec] at h; cases h
      | some pr =>
        rw [hrec] at h
        cases h
        exact ih hrec

/-- Path compression preserves every node's ultimate representative. -/
theorem findCompress_preserves_root : ∀ {fuel : Nat} {l l2 : List Nat} {i r : Nat},
    findCompress fuel l i = some (r, l2) →
    ∀ j q, Root l j q → Root l2 j q := by
  intro fuel
  induction fuel with
  | zero => intro l l2 i r h; simp [findCompress] at h
  | succ f ih =>
    intro l l2 i r h
    rw [findCompress] at h
    by_cases hp : pget l i = i
    · rw [if_pos hp] at h
      cases h
      exact fun j q hq => hq
    · rw [if_neg hp] at h
      cases hrec : findCompress f l (pget l i) with
      | none => rw [hrec] at h; cases h
      | some pr =>
        obtain ⟨r0, l3⟩ := pr
        rw [hrec] at h
        cases h
        intro j q hq
        have hir : Root l i r := ⟨f + 1, by
          rw [findRoot, if_neg hp]; exact findCompress_fst hrec⟩
        have hil3 : Root l3 i r := ih hrec i r hir
        exact set_preserves_root hil3 j q (ih hrec j q hq)

theorem runQueries_preserves_root {fuel : Nat} {l l2 : List Nat} {qs : List Nat}
    (h : runQueries fuel l qs = some l2) :
    ∀ j q, Root l j q → Root l2 j q := by
  induction qs generalizing l with
  | nil =>
    rw [runQueries] at h
    cases h
    exact fun j q hq => hq
  | cons x xs ih =>
    rw [runQueries] at h
    cases hc : findCompress fuel l x with
    | none => rw [hc] at h; cases h
    | some pr =>
      obtain ⟨rx, lx⟩ := pr
      rw [hc] at h
      intro j q hq
      exact ih h j q (findCompress_preserves_root hc j q hq)

end MergeModel

theorem map_set_mergeTarget {K : Type} [DecidableEq K]
    (l : List (ANode K)) (i : Nat) (x : ANode K) :
    (l.set i x).map (fun n => n.mergeTarget)
      = (l.map (fun n => n.mergeTarget)).set i x.mergeTarget := by
  induction l generalizing i with
  | nil => rfl
  | cons y ys ih =>
    cases i with
    | zero => rfl
    | succ k => simp [List.set, ih]

/-- NFState.mergeNode acts on the mergeTarget column exactly as the parent
array merge. -/
theorem mergeTargets_mergeNode {K : Type} [DecidableEq K]
    (s s2 : NFState K) (n0 n1 : Nat) (h : s.mergeNode n0 n1 = some s2) :
    MergeModel.mergeP (mergeTargets s) n0 n1 = some (mergeTargets s2) := by
  rw [NFState.mergeNode] at h
  by_cases hb : n0 < s.nodes.length ∧ n1 < s.nodes.length
  · rw [if_pos hb] at h
    have hs2 := Option.some.inj h
    rw [MergeModel.mergeP, if_pos (by simpa [mergeTargets] using hb)]
    rw [← hs2]
    simp [mergeTargets, map_set_mergeTarget]
  · rw [if_neg hb] at h
    cases h

/-!
### Claim C6: merge transitivity and stability under path compression
-/

/-- C6 (counterexample): the claim quantifies over all nodes a, b, c, but for
b = c the second mergeNode call overwrites the first: after mergeNode(0,1) and
mergeNode(1,1) on the initial five-node parent array, getMergeTarget(1) is 1
while getMergeTarget(0) is 0. -/
theorem mergeNode_transitive_cex :
    MergeModel.mergeP [0, 1, 2, 3, 4] 0 1 = some [0, 0, 2, 3, 4]
  ∧ MergeModel.mergeP [0, 0, 2, 3, 4] 1 1 = some [0, 1, 2, 3, 4]
  ∧ MergeModel.findRoot 5 [0, 1, 2, 3, 4] 1 = some 1
  ∧ MergeModel.findRoot 5 [0, 1, 2, 3, 4] 0 = some 0
  ∧ (1 : Nat) ≠ 0 := by
  decide

/-- C6 (amended): for nodes a, b, c with b different from c, after
mergeNode(a,b) then mergeNode(b,c), whenever getMergeTarget terminates on a
(no merge cycle was created) with representative r, node c has the same
representative r, and this continues to hold no matter in which order
getMergeTarget is subsequently re-queried on any nodes: every compressing
query answered after any sequence of prior compressing queries still returns
r for both a and c. -/
theorem mergeNode_transitive (l l1 l2 : List Nat) (a b c r : Nat)
    (h1 : MergeModel.mergeP l a b = some l1)
    (h2 : MergeModel.mergeP l1 b c = some l2)
    (hbc : b ≠ c) (hra : MergeModel.Root l2 a r) :
    MergeModel.Root l2 c r
  ∧ (∀ fuel qs l3, MergeModel.runQueries fuel l2 qs = some l3 →
      (∀ f2 rc lc, MergeModel.findCompress f2 l3 c = some (rc, lc) → rc = r)
    ∧ (∀ f2 ra la, MergeModel.findCompress f2 l3 a = some (ra, la) → ra = r)) := by
  rw [MergeModel.mergeP] at h1
  by_cases hab1 : a < l.length ∧ b < l.length
  case neg => rw [if_neg hab1] at h1; cases h1
  rw [if_pos hab1] at h1
  have hl1 : l1 = l.set b a := (Option.some.inj h1).symm
  rw [MergeModel.mergeP] at h2
  by_cases hbc1 : b < l1.length ∧ c < l1.length
  case neg => rw [if_neg hbc1] at h2; cases h2
  rw [if_pos hbc1] at h2
  have hl2 : l2 = l1.set c b := (Option.some.inj h2).symm
  have hcb : MergeModel.pget l2 c = b := by
    rw [hl2]; exact MergeModel.pget_set_self hbc1.2
  have hba : MergeModel.pget l2 b = a := by
    rw [hl2, MergeModel.pget_set_ne hbc, hl1]
    exact MergeModel.pget_set_self hab1.2
  have hbr : MergeModel.Root l2 b r := by
    rcases eq_or_ne a b with hab | hab
    · exact hab ▸ hra
    · exact MergeModel.root_step (by rw [hba]; exact hab)
        (by rw [hba]; exact hra)
  have hcr : MergeModel.Root l2 c r :=
    MergeModel.root_step (by rw [hcb]; exact hbc) (by rw [hcb]; exact hbr)
  refine ⟨hcr, ?_⟩
  intro fuel qs l3 hrun
  constructor
  · intro f2 rc lc hc
    have hpres : MergeModel.Root l3 c r :=
      MergeModel.runQueries_preserves_root hrun c r hcr
    exact MergeModel.root_unique ⟨f2, MergeModel.findCompress_fst hc⟩ hpres
  · intro f2 ra la ha
    have hpres : MergeModel.Root l3 a r :=
      MergeModel.runQueries_preserves_root hrun a r hra
    exact MergeModel.root_unique ⟨f2, MergeModel.findCompress_fst ha⟩ hpres

/-- C6 witness: a concrete run of the amended theorem, merging node 1 into 0
and node 2 into 1 on the initial five-node parent array. -/
theorem mergeNode_transitive_witness :
    MergeModel.Root [0, 0, 1, 3, 4] 2 0 :=
  (mergeNode_transitive [0, 1, 2, 3, 4] [0, 0, 2, 3, 4] [0, 0, 1, 3, 4]
    0 1 2 0 (by decide) (by decide) (by decide) ⟨1, by decide⟩).1

/-!
### Contiguity of object-node chains (claim C2)
-/

theorem isObjectNode_iff {K : Type} [DecidableEq K] (s : NFState K) (n : Nat) :
    NFState.isObjectNode s n = true
      ↔ (n < s.numNodes ∧ (s.nodeAt n).ty = NType.obj) := by
  simp [NFState.isObjectNode]

theorem nodeAt_append_left {K : Type} [DecidableEq K] {s s2 : NFState K}
    {x : ANode K} (hn : s2.nodes = s.nodes ++ [x]) {n : Nat}
    (h : n < s.numNodes) : s2.nodeAt n = s.nodeAt n := by
  have h2 : n < s.nodes.length := h
  rw [NFState.nodeAt, NFState.nodeAt, hn,
      List.getD_eq_getElem?_getD, List.getD_eq_getElem?_getD,
      List.getElem?_append, if_pos h2]

theorem nodeAt_append_last {K : Type} [DecidableEq K] {s s2 : NFState K}
    {x : ANode K} (hn : s2.nodes = s.nodes ++ [x]) :
    s2.nodeAt s.numNodes = x := by
  rw [NFState.nodeAt, hn, List.getD_eq_getElem?_getD, NFState.numNodes,
      List.getElem?_concat_length]
  rfl

theorem numNodes_append {K : Type} [DecidableEq K] {s s2 : NFState K}
    {x : ANode K} (hn : s2.nodes = s.nodes ++ [x]) :
    s2.numNodes = s.numNodes + 1 := by
  rw [NFState.numNodes, NFState.numNodes, hn]
  simp

theorem createValueNode_nodes {K : Type} [DecidableEq K] {s : NFState K}
    {v : Option K} {i : Nat} {s2 : NFState K}
    (h : NFState.createValueNode s v = some (i, s2)) :
    s2.nodes = s.nodes ++ [⟨NType.value, v, 0, false, false, s.nodes.length⟩] := by
  cases v with
  | none =>
    simp only [NFState.createValueNode] at h
    cases h
    rfl
  | some v0 =>
    simp only [NFState.createValueNode] at h
    cases hl : alookup s.valueNodeMap v0 with
    | some _ => rw [hl] at h; cases h
    | none => rw [hl] at h; cases h; rfl

theorem createObjectNode_nodes {K : Type} [DecidableEq K] (s : NFState K)
    (val : Option K) (uo heap : Bool) :
    (s.createObjectNode val uo heap).2.nodes
      = s.nodes ++ [⟨NType.obj, val, 0, uo, heap, s.nodes.length⟩] := by
  cases val with
  | none => rfl
  | some v0 =>
    simp only [NFState.createObjectNode]
    cases hl : alookup s.objNodeMap v0 <;> rfl

theorem createReturnNode_nodes {K : Type} [DecidableEq K] {s : NFState K}
    {f : K} {i : Nat} {s2 : NFState K}
    (h : NFState.createReturnNode s f = some (i, s2)) :
    s2.nodes = s.nodes ++ [⟨NType.value, some f, 0, false, false, s.nodes.length⟩] := by
  simp only [NFState.createReturnNode] at h
  cases hl : alookup s.returnMap f with
  | some _ => rw [hl] at h; cases h
  | none => rw [hl] at h; cases h; rfl

theorem createVarargNode_nodes {K : Type} [DecidableEq K] {s : NFState K}
    {f : K} {i : Nat} {s2 : NFState K}
    (h : NFState.createVarargNode s f = some (i, s2)) :
    s2.nodes = s.nodes ++ [⟨NType.obj, some f, 0, false, false, s.nodes.length⟩] := by
  simp only [NFState.createVarargNode] at h
  cases hl : alookup s.varargMap f with
  | some _ => rw [hl] at h; cases h
  | none => rw [hl] at h; cases h; rfl

theorem createObjectNodeOfs_nodes {K : Type} [DecidableEq K] {s : NFState K}
    {base offset : Nat} {uo heap : Bool} {i : Nat} {s2 : NFState K}
    (h : NFState.createObjectNodeOfs s base offset uo heap = some (i, s2)) :
    offset ≠ 0 ∧ s.nodes.length = base + offset ∧ i = base + offset
  ∧ s2.nodes = s.nodes ++ [⟨NType.obj, none, offset, uo, heap, base + offset⟩] := by
  rw [NFState.createObjectNodeOfs] at h
  by_cases h0 : offset = 0
  · rw [if_pos h0] at h; cases h
  rw [if_neg h0] at h
  by_cases hl : s.nodes.length = base + offset
  · rw [if_pos hl] at h
    cases h
    exact ⟨h0, hl, rfl, rfl⟩
  · rw [if_neg hl] at h; cases h

theorem mergeNode_shape {K : Type} [DecidableEq K] {s : NFState K}
    {n0 n1 : Nat} {s2 : NFState K} (h : NFState.mergeNode s n0 n1 = some s2) :
    s2.numNodes = s.numNodes
  ∧ ∀ n, (s2.nodeAt n).ty = (s.nodeAt n).ty
       ∧ (s2.nodeAt n).offset = (s.nodeAt n).offset := by
  rw [NFState.mergeNode] at h
  by_cases hb : n0 < s.nodes.length ∧ n1 < s.nodes.length
  case neg => rw [if_neg hb] at h; cases h
  rw [if_pos hb] at h
  cases h
  constructor
  · simp [NFState.numNodes]
  · intro n
    by_cases hn : n = n1
    · subst hn
      rw [NFState.nodeAt, NFState.nodeAt]
      simp only [List.getD_eq_getElem?_getD, List.getElem?_set_self hb.2]
      rw [List.getElem?_eq_getElem hb.2]
      simp [List.getD_eq_getElem?_getD, List.getElem?_eq_getElem hb.2]
    · rw [NFState.nodeAt, NFState.nodeAt]
      simp only [List.getD_eq_getElem?_getD,
        List.getElem?_set_ne (fun hx => hn hx.symm)]
      exact ⟨trivial, trivial⟩

/-- contigBase only depends on the type and offset columns and the length of
the node vector. -/
theorem contigBase_congr {s s2 : NFState Nat}
    (hlen : s2.numNodes = s.numNodes)
    (hty : ∀ n, (s2.nodeAt n).ty = (s.nodeAt n).ty)
    (hoff : ∀ n, (s2.nodeAt n).offset = (s.nodeAt n).offset)
    (h : contigBase s) : contigBase s2 := by
  intro n hobj hpos
  rw [isObjectNode_iff, hlen, hty n] at hobj
  rw [hoff n] at hpos
  obtain ⟨h1, h2, h3⟩ := h n (by rw [isObjectNode_iff]; exact hobj) hpos
  rw [isObjectNode_iff] at h2 ⊢
  rw [hoff n, hty _, hoff _, hlen]
  exact ⟨h1, h2, h3⟩

/-- Appending a node preserves contigBase provided the new node, when it has
positive offset, points back at a valid zero-offset object node. -/
theorem contigBase_append {s s2 : NFState Nat} {x : ANode Nat}
    (hn : s2.nodes = s.nodes ++ [x])
    (hx : 0 < x.offset →
        x.offset ≤ s.numNodes
      ∧ NFState.isObjectNode s (s.numNodes - x.offset) = true
      ∧ (s.nodeAt (s.numNodes - x.offset)).offset = 0)
    (h : contigBase s) : contigBase s2 := by
  have hlen := numNodes_append hn
  intro n hobj hpos
  rw [isObjectNode_iff] at hobj
  rcases Nat.lt_or_ge n s.numNodes with hlt | hge
  · have he := nodeAt_append_left hn hlt
    rw [he] at hpos
    obtain ⟨h1, h2, h3⟩ := h n (by
      rw [isObjectNode_iff]
      exact ⟨hlt, by rw [← he]; exact hobj.2⟩) hpos
    have hlt2 : n - (s.nodeAt n).offset < s.numNodes := Nat.lt_of_le_of_lt (Nat.sub_le _ _) hlt
    have he2 := nodeAt_append_left hn hlt2
    rw [isObjectNode_iff] at h2
    refine ⟨by rw [he]; exact h1, ?_, ?_⟩
    · rw [isObjectNode_iff, he, he2, hlen]
      exact ⟨Nat.lt_succ_of_lt hlt2, h2.2⟩
    · rw [he, he2]
      exact h3
  · have hn2 : n = s.numNodes := by
      have := hobj.1
      omega
    subst hn2
    have he := nodeAt_append_last hn
    rw [he] at hpos
    obtain ⟨h1, h2, h3⟩ := hx hpos
    have hlt2 : s.numNodes - x.offset < s.numNodes + 1 :=
      Nat.lt_succ_of_le (Nat.sub_le _ _)
    rw [isObjectNode_iff] at h2
    have he2 := nodeAt_append_left hn (Nat.lt_of_lt_of_le h2.1 (Nat.le_refl _))
    refine ⟨by rw [he]; exact h1, ?_, ?_⟩
    · rw [isObjectNode_iff, he, hlen]
      exact ⟨by omega, by rw [nodeAt_append_left hn h2.1]; exact h2.2⟩
    · rw [he, nodeAt_append_left hn h2.1]
      exact h3

theorem chainLen_spec {K : Type} [DecidableEq K] :
    ∀ (l : List (ANode K)) (off k : Nat), k < NFState.chainLen l off →
      ∃ x, l[k]? = some x ∧ x.ty = NType.obj ∧ x.offset = off + k + 1 := by
  intro l
  induction l with
  | nil => intro off k hk; simp [NFState.chainLen] at hk
  | cons y ys ih =>
    intro off k hk
    rw [NFState.chainLen] at hk
    by_cases hy : y.ty = NType.obj ∧ y.offset = off + 1
    case neg => rw [if_neg hy] at hk; omega
    rw [if_pos hy] at hk
    cases k with
    | zero => exact ⟨y, by simp, hy.1, by rw [hy.2]⟩
    | succ j =>
      obtain ⟨x, hx, hty, hoff⟩ := ih (off + 1) j (by omega)
      exact ⟨x, by simpa using hx, hty, by omega⟩

/-- In any state, the getObjectSize scan starting from a zero-offset object
node covers exactly object nodes with recorded offsets 0, 1, 2, ... -/
theorem getObjectSize_chain {K : Type} [DecidableEq K] {s : NFState K} {b : Nat}
    (hobj : NFState.isObjectNode s b = true)
    (h0 : (s.nodeAt b).offset = 0) :
    ∀ i, i < s.getObjectSize b →
      NFState.isObjectNode s (b + i) = true ∧ (s.nodeAt (b + i)).offset = i := by
  intro i hi
  rw [NFState.getObjectSize, h0] at hi
  cases i with
  | zero => exact ⟨hobj, h0⟩
  | succ j =>
    have hj : j < NFState.chainLen (s.nodes.drop (b + 1)) 0 := by omega
    obtain ⟨x, hx, hty, hoff⟩ := chainLen_spec _ 0 j hj
    rw [List.getElem?_drop] at hx
    have hidx : b + 1 + j = b + (j + 1) := by omega
    rw [hidx] at hx
    have hbound : b + (j + 1) < s.nodes.length := by
      by_contra hge
      rw [List.getElem?_eq_none (Nat.le_of_not_lt hge)] at hx
      cases hx
    have hAt : s.nodeAt (b + (j + 1)) = x := by
      rw [NFState.nodeAt, List.getD_eq_getElem?_getD, hx]
      rfl
    refine ⟨?_, ?_⟩
    · rw [isObjectNode_iff, hAt]
      exact ⟨hbound, hty⟩
    · rw [hAt]
      omega

theorem chainLoop_contig : ∀ (count : Nat) (s : NFState Nat) (base i : Nat)
    (flags : Nat → Bool) (heap : Bool) (s3 : NFState Nat),
    contigBase s → NFState.isObjectNode s base = true →
    (s.nodeAt base).offset = 0 → s.numNodes = base + i →
    chainLoop count s base i flags heap = some s3 → contigBase s3 := by
  intro count
  induction count with
  | zero =>
    intro s base i flags heap s3 hc hobj hoff hlen h
    rw [chainLoop] at h
    cases h
    exact hc
  | succ cnt ih =>
    intro s base i flags heap s3 hc hobj hoff hlen h
    rw [chainLoop] at h
    cases hop : s.createObjectNodeOfs base i (flags i) heap with
    | none => rw [hop] at h; cases h
    | some p =>
      obtain ⟨idx, s2⟩ := p
      rw [hop] at h
      obtain ⟨hi0, hleq, hidx, hnodes⟩ := createObjectNodeOfs_nodes hop
      have hipos : 0 < i := Nat.pos_of_ne_zero hi0
      have hbl : base < s.numNodes := by rw [hlen]; omega
      have hc2 : contigBase s2 := by
        refine contigBase_append hnodes ?_ hc
        intro _
        show i ≤ s.numNodes ∧ NFState.isObjectNode s (s.numNodes - i) = true
          ∧ (s.nodeAt (s.numNodes - i)).offset = 0
        have hbase : s.numNodes - i = base := by rw [hlen]; omega
        refine ⟨by rw [hlen]; omega, ?_, ?_⟩
        · rw [hbase]; exact hobj
        · rw [hbase]; exact hoff
      have hobj2 : NFState.isObjectNode s2 base = true := by
        rw [isObjectNode_iff, nodeAt_append_left hnodes hbl, numNodes_append hnodes]
        rw [isObjectNode_iff] at hobj
        exact ⟨Nat.lt_succ_of_lt hobj.1, hobj.2⟩
      have hoff2 : (s2.nodeAt base).offset = 0 := by
        rw [nodeAt_append_left hnodes hbl]
        exact hoff
      have hlen2 : s2.numNodes = base + (i + 1) := by
        rw [numNodes_append hnodes, hlen]
        omega
      exact ih s2 base (i + 1) flags heap s3 hc2 hobj2 hoff2 hlen2 h

theorem createObjectChain_contig {s : NFState Nat} {v : Nat}
    {flags : Nat → Bool} {heap : Bool} {size i : Nat} {s2 : NFState Nat}
    (h : createObjectChain s v flags heap size = some (i, s2))
    (hc : contigBase s) : contigBase s2 := by
  rw [createObjectChain] at h
  cases hl : alookup s.objNodeMap v with
  | some j =>
    rw [hl] at h
    cases h
    exact hc
  | none =>
    rw [hl] at h
    simp only at h
    cases hcl : chainLoop (size - 1) (s.createObjectNode (some v) (flags 0) heap).2
        (s.createObjectNode (some v) (flags 0) heap).1 1 flags heap with
    | none => rw [hcl] at h; cases h
    | some s3 =>
      rw [hcl] at h
      cases h
      have hnodes := createObjectNode_nodes s (some v) (flags 0) heap
      have hfst : (s.createObjectNode (some v) (flags 0) heap).1 = s.numNodes := by
        simp only [NFState.createObjectNode, hl]
        rfl
      have hc2 : contigBase (s.createObjectNode (some v) (flags 0) heap).2 :=
        contigBase_append hnodes (fun hpos => by simp at hpos) hc
      refine chainLoop_contig (size - 1) _ _ 1 flags heap s2 hc2 ?_ ?_ ?_ hcl
      · rw [hfst, isObjectNode_iff, nodeAt_append_last hnodes, numNodes_append hnodes]
        exact ⟨Nat.lt_succ_self _, rfl⟩
      · rw [hfst, nodeAt_append_last hnodes]
      · rw [hfst, numNodes_append hnodes]

/-- Every reachable factory state satisfies the base contiguity property. -/
theorem reachable_contigBase {s : NFState Nat} (h : Reachable s) : contigBase s := by
  induction h with
  | init =>
    intro n hobj hoff
    exfalso
    have hz : ((NFState.initState Nat).nodeAt n).offset = 0 := by
      rcases n with _ | _ | _ | _ | _ | m <;> rfl
    omega
  | valueNode hR hop ih =>
    exact contigBase_append (createValueNode_nodes hop) (fun hpos => by simp at hpos) ih
  | objNode v uo heap hR ih =>
    exact contigBase_append (createObjectNode_nodes _ v uo heap)
      (fun hpos => by simp at hpos) ih
  | objChain hR hop ih =>
    exact createObjectChain_contig hop ih
  | returnNode hR hop ih =>
    exact contigBase_append (createReturnNode_nodes hop) (fun hpos => by simp at hpos) ih
  | varargNode hR hop ih =>
    exact contigBase_append (createVarargNode_nodes hop) (fun hpos => by simp at hpos) ih
  | merge hR hop ih =>
    obtain ⟨hlen, hshape⟩ := mergeNode_shape hop
    exact contigBase_congr hlen (fun n => (hshape n).1) (fun n => (hshape n).2) ih

/-!
### Claim C2: the contiguity invariant
-/

/-- C2: in every reachable factory state, for every object node n with
recorded offset o positive, node n - o is a valid object node with offset 0,
and for every i below the size of that object, node (n - o) + i exists, is an
object node, and has recorded offset i; moreover createObjectNode(base,
offset, ...) succeeds exactly when the newly allocated index (the current
table size) equals base + offset and offset is nonzero. -/
theorem contiguity_invariant (s : NFState Nat) (h : Reachable s) :
    (∀ n, NFState.isObjectNode s n = true → 0 < (s.nodeAt n).offset →
        (s.nodeAt n).offset ≤ n
      ∧ NFState.isObjectNode s (n - (s.nodeAt n).offset) = true
      ∧ (s.nodeAt (n - (s.nodeAt n).offset)).offset = 0
      ∧ ∀ i, i < s.getObjectSize (n - (s.nodeAt n).offset) →
          NFState.isObjectNode s (n - (s.nodeAt n).offset + i) = true
        ∧ (s.nodeAt (n - (s.nodeAt n).offset + i)).offset = i)
  ∧ (∀ base offset uo heap,
      (NFState.createObjectNodeOfs s base offset uo heap).isSome = true
        ↔ (offset ≠ 0 ∧ s.numNodes = base + offset)) := by
  constructor
  · intro n hobj hoff
    obtain ⟨h1, h2, h3⟩ := reachable_contigBase h n hobj hoff
    exact ⟨h1, h2, h3, getObjectSize_chain h2 h3⟩
  · intro base offset uo heap
    rw [NFState.createObjectNodeOfs]
    by_cases h0 : offset = 0
    · simp [h0]
    rw [if_neg h0]
    by_cases hl : s.nodes.length = base + offset
    · rw [if_pos hl]
      simpa using ⟨h0, hl⟩
    · rw [if_neg hl]
      constructor
      · intro hx
        exact absurd hx (by simp)
      · intro hx
        exact absurd hx.2 hl

/-- C2 witness: the theorem applied to the concrete reachable state holding a
three-field object chain at nodes 5, 6, 7, instantiated at node 7 (offset 2)
and field index 2, plus the success condition of the offset form at the
current table size. -/
theorem contiguity_invariant_witness :
    ((chainState.nodeAt 7).offset ≤ 7
  ∧ NFState.isObjectNode chainState (7 - (chainState.nodeAt 7).offset) = true
  ∧ (chainState.nodeAt (7 - (chainState.nodeAt 7).offset)).offset = 0
  ∧ NFState.isObjectNode chainState (7 - (chainState.nodeAt 7).offset + 2) = true
  ∧ (chainState.nodeAt (7 - (chainState.nodeAt 7).offset + 2)).offset = 2)
  ∧ ((NFState.createObjectNodeOfs chainState 7 1 false false).isSome = true
      ↔ ((1 : Nat) ≠ 0 ∧ chainState.numNodes = 7 + 1)) := by
  have hchain : createObjectChain (NFState.initState Nat) 7 (fun _ => false) false 3
      = some (5, chainState) := by decide
  have h := contiguity_invariant chainState (Reachable.objChain Reachable.init hchain)
  have h1 := h.1 7 (by decide) (by decide)
  have h2 := h1.2.2.2 2 (by decide)
  exact ⟨⟨h1.1, h1.2.1, h1.2.2.1, h2.1, h2.2⟩, h.2 7 1 false false⟩

/-!
### Claim C5: struct flattening
-/

/-- C5: for the struct of an int, a nested struct of two ints, and an int,
the computed StructInfo has expanded field count 4, its field offsets are the
byte layout's offsets 0, 4, 8, 12 (monotonically non-decreasing; the outer
layout places the members at 0, 4, 12 and the inner struct places its members
at 0 and 4 within its offset 4), and the byte-offset-to-field-number
translation applied at byte offset 8, the second field of the inner struct,
returns expanded field index 2. -/
theorem struct_flattening_correct :
    (structInfoOfF 10 structC5).map (fun si => si.getExpandedSize) = some 4
  ∧ (structInfoOfF 10 structC5).map (fun si => si.fieldOffset) = some [0, 4, 8, 12]
  ∧ elemOffsets [LType.int 4, .strukt false [.int 4, .int 4], .int 4] 0 = [0, 4, 12]
  ∧ elemOffsets [LType.int 4, .int 4] 0 = [0, 4]
  ∧ List.Pairwise (fun a b => a ≤ b) [0, 4, 8, 12]
  ∧ offsetToFieldNum 10 structC5 (4 + 4) = some 2 := by
  decide

/-!
### Claim C10: non-pointer constants
-/

/-- C10: for every constant c whose type is not a pointer type,
getObjectNodeForConstant(c) returns index 0, the universal pointer node,
which is a value node and not an object node, while getValueNodeForConstant
on the same constant returns the constant-int object node, index 4. -/
theorem nonpointer_constant_resolution (s : NFState ConstV) (c : ConstV)
    (h : c.isPointerTy = false) :
    resolveObjConst s c = some UniversalPtrIndex
  ∧ UniversalPtrIndex = 0
  ∧ ((NFState.initState ConstV).nodeAt UniversalPtrIndex).ty = NType.value
  ∧ NFState.isObjectNode (NFState.initState ConstV) UniversalPtrIndex = false
  ∧ resolveValueConst s c = some (ConstantIntIndex, s)
  ∧ ConstantIntIndex = 4
  ∧ ((NFState.initState ConstV).nodeAt ConstantIntIndex).ty = NType.obj := by
  cases c <;>
    first
      | exact ⟨rfl, rfl, by decide, by decide, rfl, rfl, by decide⟩
      | exact absurd h (by simp [ConstV.isPointerTy])

/-- C10 witness: the theorem at a concrete integer constant in the initial
state. -/
theorem nonpointer_constant_resolution_witness :
    resolveObjConst (NFState.initState ConstV) ConstV.intConst = some UniversalPtrIndex
  ∧ resolveValueConst (NFState.initState ConstV) ConstV.intConst
      = some (ConstantIntIndex, NFState.initState ConstV) := by
  have h := nonpointer_constant_resolution (NFState.initState ConstV) ConstV.intConst rfl
  exact ⟨h.1, h.2.2.2.2.1⟩

/-!
### Claim C8: GEP on the null and universal objects
-/

/-- C8 (counterexample): resolving a constant GEP whose base resolves to the
null object through getObjectNodeForConstant returns the null object node 3
itself, not the null pointer node 2 as the claim states for the object-node
resolution. -/
theorem gep_null_base_object_cex :
    resolveObjConst (NFState.initState ConstV) (ConstV.gep ConstV.nullPtr 1)
      = some NullObjectIndex
  ∧ NullObjectIndex ≠ NullPtrIndex := by
  decide

/-- C8 (amended): in the value-node resolution a GEP whose base resolves to
the null object yields the null pointer, and a base resolving to the
universal object yields the universal pointer; in the object-node resolution
such a GEP returns the base node itself, the null object or the universal
object. -/
theorem gep_special_base_resolution (s s1 : NFState ConstV) (b : ConstV) (f : Nat) :
    (resolveValueConst s b = some (NullObjectIndex, s1) →
        resolveValueConst s (ConstV.gep b f) = some (NullPtrIndex, s1))
  ∧ (resolveValueConst s b = some (UniversalObjIndex, s1) →
        resolveValueConst s (ConstV.gep b f) = some (UniversalPtrIndex, s1))
  ∧ (∀ bn, resolveObjConst s b = some bn →
        bn = NullObjectIndex ∨ bn = UniversalObjIndex →
        resolveObjConst s (ConstV.gep b f) = some bn) := by
  refine ⟨?_, ?_, ?_⟩
  · intro hb
    simp [resolveValueConst, hb, InvalidIndex, NullObjectIndex, NullPtrIndex,
          UniversalObjIndex, UniversalPtrIndex]
  · intro hb
    simp [resolveValueConst, hb, InvalidIndex, NullObjectIndex, NullPtrIndex,
          UniversalObjIndex, UniversalPtrIndex]
  · intro bn hb hor
    rcases hor with h3 | h1
    · subst h3
      simp [resolveObjConst, hb, InvalidIndex, NullObjectIndex, UniversalObjIndex]
    · subst h1
      simp [resolveObjConst, hb, InvalidIndex, NullObjectIndex, UniversalObjIndex]

/-- C8 witness: concrete runs on a state whose global 0 resolves to the null
object and whose global 1 resolves to the universal object. -/
theorem gep_special_base_resolution_witness :
    resolveValueConst gepWitnessState (ConstV.gep (ConstV.globalVal 0) 1)
      = some (NullPtrIndex, gepWitnessState)
  ∧ resolveValueConst gepWitnessState (ConstV.gep (ConstV.globalVal 1) 1)
      = some (UniversalPtrIndex, gepWitnessState)
  ∧ resolveObjConst gepWitnessState (ConstV.gep ConstV.nullPtr 1)
      = some NullObjectIndex := by
  refine ⟨?_, ?_, ?_⟩
  · exact (gep_special_base_resolution gepWitnessState gepWitnessState
      (ConstV.globalVal 0) 1).1 (by decide)
  · exact (gep_special_base_resolution gepWitnessState gepWitnessState
      (ConstV.globalVal 1) 1).2.1 (by decide)
  · exact (gep_special_base_resolution gepWitnessState gepWitnessState
      ConstV.nullPtr 1).2.2 NullObjectIndex (by decide) (Or.inl rfl)

/-!
### Claim C3: conservative degradation
-/

/-- C3 (counterexample): an integer-to-pointer cast constant resolves to the
null pointer node 2, which is neither the universal pointer 0 nor the
universal object 1 nor a union node, against the claim that every
recognized-but-imprecise input resolves to a universal node or the enclosing
union node. -/
theorem conservative_degradation_cex :
    resolveValueConst (NFState.initState ConstV) ConstV.intToPtr
      = some (NullPtrIndex, NFState.initState ConstV)
  ∧ NullPtrIndex ≠ UniversalPtrIndex
  ∧ NullPtrIndex ≠ UniversalObjIndex
  ∧ ((NFState.initState ConstV).nodeAt NullPtrIndex).isUnion = false := by
  decide

/-- C3 (amended): the recognized-but-imprecise inputs resolve without
aborting, as follows: integer-to-pointer casts and block-address constants
resolve to the null pointer node (value resolution) and the null object node
(object resolution); pointer-to-integer casts are integer-typed and resolve
through the non-pointer early return to the constant-int object node (value
resolution) and the universal pointer node (object resolution); a field
access into a union object returns the enclosing union node; a GEP byte
offset that does not land on a field boundary of a non-aggregate tail type
emits a warning and answers the field index accumulated so far (0 at top
level). -/
theorem conservative_degradation (s : NFState ConstV) (n off k f2 : Nat) (z : Int) :
    resolveValueConst s ConstV.intToPtr = some (NullPtrIndex, s)
  ∧ resolveValueConst s ConstV.blockAddr = some (NullPtrIndex, s)
  ∧ resolveValueConst s ConstV.ptrToInt = some (ConstantIntIndex, s)
  ∧ resolveObjConst s ConstV.intToPtr = some NullObjectIndex
  ∧ resolveObjConst s ConstV.blockAddr = some NullObjectIndex
  ∧ resolveObjConst s ConstV.ptrToInt = some UniversalPtrIndex
  ∧ (n < s.numNodes → (s.nodeAt n).isUnion = true →
      NFState.getOffsetObjectNode s n off = some n)
  ∧ (0 < z → 0 < k → z % (Int.ofNat k) ≠ 0 →
      offsetToFieldNum (f2 + 1) (LType.int k) z = some 0) := by
  refine ⟨rfl, rfl, rfl, rfl, rfl, rfl, ?_, ?_⟩
  · intro h1 h2
    rw [NFState.getOffsetObjectNode, if_neg (by omega), if_pos h2]
  · intro hz hk hmod
    have h1 : ¬ z < 0 := by omega
    have h2 : ¬ z ≤ 0 := by omega
    have h3 : ¬ (Int.ofNat k = 0) := by
      intro hc
      have hk0 : k = 0 := Int.ofNat.inj hc
      omega
    unfold offsetToFieldNum
    rw [if_neg h1]
    show o2fLoop (f2 + 1) (LType.int k) z 0 = some 0
    unfold o2fLoop
    rw [if_neg h2]
    show (if (Int.ofNat k = 0) then (none : Option Nat) else some 0) = some 0
    rw [if_neg h3]

/-- C3 witness: a union object access on a concrete state with a union node
at index 5, and a misaligned byte offset 6 into a 4-byte integer. -/
theorem conservative_degradation_witness :
    NFState.getOffsetObjectNode unionWitnessState 5 3 = some 5
  ∧ offsetToFieldNum 3 (LType.int 4) 6 = some 0 := by
  have h := conservative_degradation unionWitnessState 5 3 4 2 6
  exact ⟨h.2.2.2.2.2.2.1 (by decide) (by decide),
         h.2.2.2.2.2.2.2 (by decide) (by decide) (by decide)⟩

/-!
### Claim C4: heap allocation sizing
-/

theorem chainNodes_length {K : Type} [DecidableEq K] :
    ∀ (cnt base i : Nat) (flags : Nat → Bool) (heap : Bool),
      (chainNodes (K := K) base i cnt flags heap).length = cnt := by
  intro cnt
  induction cnt with
  | zero => intro base i flags heap; rfl
  | succ c ih =>
    intro base i flags heap
    rw [chainNodes]
    simp [ih base (i + 1) flags heap]

/-- A successful run of the chain loop appends exactly the expected nodes. -/
theorem chainLoop_nodes {K : Type} [DecidableEq K] :
    ∀ (cnt : Nat) (s : NFState K) (base i : Nat) (flags : Nat → Bool)
      (heap : Bool) (s3 : NFState K),
      s.numNodes = base + i →
      chainLoop cnt s base i flags heap = some s3 →
      s3.nodes = s.nodes ++ chainNodes base i cnt flags heap := by
  intro cnt
  induction cnt with
  | zero =>
    intro s base i flags heap s3 hlen h
    rw [chainLoop] at h
    cases h
    simp [chainNodes]
  | succ c ih =>
    intro s base i flags heap s3 hlen h
    rw [chainLoop] at h
    cases hop : s.createObjectNodeOfs base i (flags i) heap with
    | none => rw [hop] at h; cases h
    | some p =>
      obtain ⟨idx, s2⟩ := p
      rw [hop] at h
      obtain ⟨hi0, hleq, hidx, hnodes⟩ := createObjectNodeOfs_nodes hop
      have hlen2 : s2.numNodes = base + (i + 1) := by
        rw [numNodes_append hnodes, hlen]
        omega
      have := ih s2 base (i + 1) flags heap s3 hlen2 h
      rw [this, hnodes, chainNodes]
      simp

theorem chainLen_chainNodes {K : Type} [DecidableEq K] :
    ∀ (cnt i base : Nat) (flags : Nat → Bool) (heap : Bool),
      NFState.chainLen (chainNodes (K := K) base (i + 1) cnt flags heap) i = cnt := by
  intro cnt
  induction cnt with
  | zero => intro i base flags heap; rfl
  | succ c ih =>
    intro i base flags heap
    rw [chainNodes, NFState.chainLen, if_pos ⟨rfl, rfl⟩]
    rw [ih (i + 1) base flags heap]
    omega

/-- C4: a call to a table-registered allocator whose size argument is a
literal z strictly larger than the pointee-type-derived allocation size
creates, on first visit, an object-node chain whose field count is z: the node
table grows by z nodes and the scanned object size of the first created node
is z, not the type-derived field count. -/
theorem heap_allocation_literal_size {sfuel : Nat} {s : NFState Nat} {ikey : Nat}
    {declElem : LType} {users : List (Option LType)} {z maxSS : Nat}
    {s2 : NFState Nat} {typeMax asz : Nat} {isU : Bool} {stOpt : Option StructInfo}
    (hsz : heapSizing sfuel declElem users = some (typeMax, asz, isU, stOpt))
    (hlit : asz < z) (hcap : z < 4294967295)
    (hnew : alookup s.objNodeMap ikey = none)
    (hrun : createNodeForHeapObject sfuel s ikey declElem users (some (some z)) maxSS
      = some s2) :
    s2.numNodes = s.numNodes + z
  ∧ NFState.getObjectSize s2 s.numNodes = z := by
  have hzpos : 0 < z := Nat.lt_of_le_of_lt (Nat.zero_le _) hlit
  have hm : heapMaxSize typeMax asz (some (some z)) maxSS = some z := by
    show (match (if asz < z then (if z < 4294967295 then some z else none)
            else some typeMax : Option Nat) with
          | none => none
          | some mv => some (if mv = 0 then maxSS else mv)) = some z
    rw [if_pos hlit, if_pos hcap]
    show some (if z = 0 then maxSS else z) = some z
    rw [if_neg (by omega)]
  unfold createNodeForHeapObject at hrun
  rw [hsz] at hrun
  simp only [hm, hnew] at hrun
  cases hcl : chainLoop (z - 1) ((s.createObjectNode (some ikey) isU true).2)
      ((s.createObjectNode (some ikey) isU true).1) 1 (heapFieldFlags stOpt) true with
  | none => rw [hcl] at hrun; cases hrun
  | some s3 =>
    rw [hcl] at hrun
    have hs2 : s3 = s2 := Option.some.inj hrun
    subst hs2
    have hpnodes := createObjectNode_nodes s (some ikey) isU true
    have hp1 : (s.createObjectNode (some ikey) isU true).1 = s.nodes.length := by
      simp only [NFState.createObjectNode, hnew]
    have hplen : (s.createObjectNode (some ikey) isU true).2.numNodes
        = s.nodes.length + 1 := by
      rw [numNodes_append hpnodes]
      rfl
    have hnodes3 := chainLoop_nodes (z - 1) _ _ 1 _ true _
      (by rw [hplen, hp1]) hcl
    rw [hpnodes, hp1] at hnodes3
    constructor
    · rw [NFState.numNodes, hnodes3]
      simp [chainNodes_length, NFState.numNodes]
      omega
    · have hL : (s.nodes ++ [(⟨NType.obj, some ikey, 0, isU, true, s.nodes.length⟩ : ANode Nat)]).length
        = s.numNodes + 1 := by simp [NFState.numNodes]
      have hAt : s3.nodeAt s.numNodes
          = (⟨NType.obj, some ikey, 0, isU, true, s.nodes.length⟩ : ANode Nat) := by
        rw [NFState.nodeAt, hnodes3, List.append_assoc, List.getD_eq_getElem?_getD,
            List.getElem?_append,
            if_neg (show ¬ s.numNodes < s.nodes.length from Nat.lt_irrefl _)]
        simp [NFState.numNodes]
      have hdrop : s3.nodes.drop (s.numNodes + 1)
          = chainNodes s.nodes.length 1 (z - 1) (heapFieldFlags stOpt) true := by
        rw [hnodes3, ← hL, List.drop_left]
      rw [NFState.getObjectSize, hAt]
      simp only []
      rw [hdrop]
      have := chainLen_chainNodes (K := Nat) (z - 1) 0 s.nodes.length
        (heapFieldFlags stOpt) true
      rw [this]
      omega

/-!
### Claim C7: memoization of constant GEP resolution
-/

theorem alookup_cons_self {K V : Type} [DecidableEq K] (l : List (K × V))
    (k : K) (v : V) : alookup ((k, v) :: l) k = some v := by
  simp [alookup]

theorem alookup_cons_ne {K V : Type} [DecidableEq K] (l : List (K × V))
    (k k2 : K) (v : V) (h : k2 ≠ k) :
    alookup ((k, v) :: l) k2 = alookup l k2 := by
  simp [alookup, h]

theorem createValueNode_some_shape {v : ConstV} {s s2 : NFState ConstV} {i : Nat}
    (h : NFState.createValueNode s (some v) = some (i, s2)) :
    i = s.nodes.length
  ∧ alookup s.valueNodeMap v = none
  ∧ s2.nodes = s.nodes ++ [⟨NType.value, some v, 0, false, false, s.nodes.length⟩]
  ∧ s2.valueNodeMap = (v, s.nodes.length) :: s.valueNodeMap
  ∧ s2.gepMap = s.gepMap
  ∧ s2.gepNodeMap = s.gepNodeMap := by
  simp only [NFState.createValueNode] at h
  cases hl : alookup s.valueNodeMap v with
  | some _ => rw [hl] at h; cases h
  | none => rw [hl] at h; cases h; exact ⟨rfl, rfl, rfl, rfl, rfl, rfl⟩

/-- The source-operand resolution inside the bitcast arm agrees with
getValueNodeForConstant on every constant operand. -/
theorem bitcast_inner_eq (s : NFState ConstV) (src : ConstV) :
    (match src with
      | ConstV.globalVal g => some (globalValueNode s g, s)
      | _ => resolveValueConst s src) = resolveValueConst s src := by
  cases src <;> rfl

theorem constExt_refl (s : NFState ConstV) : ConstExt s s :=
  ⟨fun _ => rfl, fun _ _ h => h⟩

theorem constExt_trans {a b c : NFState ConstV}
    (h1 : ConstExt a b) (h2 : ConstExt b c) : ConstExt a c :=
  ⟨fun g => (h2.1 g).trans (h1.1 g), fun k v hv => h2.2 k v (h1.2 k v hv)⟩

/-- A successful value resolution only grows the node vector, and a run that
ends with the same number of nodes did not change the state at all. -/
theorem resolveValueConst_growth :
    ∀ (c : ConstV) (s : NFState ConstV) (r : Nat) (s2 : NFState ConstV),
      resolveValueConst s c = some (r, s2) →
      s.nodes.length ≤ s2.nodes.length
    ∧ (s.nodes.length = s2.nodes.length → s2 = s) := by
  intro c
  induction c with
  | gep base f ih =>
    intro s r s2 h
    simp only [resolveValueConst] at h
    cases hb : resolveValueConst s base with
    | none => rw [hb] at h; cases h
    | some p =>
      obtain ⟨bn, sb⟩ := p
      rw [hb] at h
      dsimp only at h
      have ihb := ih s bn sb hb
      by_cases h1 : bn = InvalidIndex
      · rw [if_pos h1] at h; cases h
      rw [if_neg h1] at h
      by_cases h2 : bn = NullObjectIndex
      · rw [if_pos h2] at h; cases h; exact ihb
      rw [if_neg h2] at h
      by_cases h3 : bn = UniversalObjIndex
      · rw [if_pos h3] at h; cases h; exact ihb
      rw [if_neg h3] at h
      by_cases h4 : f = 0
      · rw [if_pos h4] at h; cases h; exact ihb
      rw [if_neg h4] at h
      cases hg : alookup sb.gepMap (bn, f) with
      | some idx => rw [hg] at h; cases h; exact ihb
      | none =>
        rw [hg] at h
        cases hcv : sb.createValueNode (some (ConstV.gep base f)) with
        | none => rw [hcv] at h; cases h
        | some q =>
          obtain ⟨idx, sc⟩ := q
          rw [hcv] at h
          cases h
          obtain ⟨hidx, hnone, hnodes, hvm, hgm, hgnm⟩ := createValueNode_some_shape hcv
          have hb1 := ihb.1
          have hsc : sc.nodes.length = sb.nodes.length + 1 := by
            rw [hnodes]; simp
          constructor
          · show s.nodes.length ≤ sc.nodes.length
            omega
          · intro heq
            have heq2 : s.nodes.length = sc.nodes.length := heq
            omega
  | bitcast src ih =>
    intro s r s2 h
    simp only [resolveValueConst] at h
    rw [bitcast_inner_eq] at h
    cases hs : resolveValueConst s src with
    | none => rw [hs] at h; cases h
    | some p =>
      obtain ⟨sn, ss⟩ := p
      rw [hs] at h
      dsimp only at h
      have ihs := ih s sn ss hs
      by_cases h2 : sn = NullObjectIndex
      · rw [if_pos h2] at h; cases h; exact ihs
      rw [if_neg h2] at h
      by_cases h3 : sn = UniversalObjIndex
      · rw [if_pos h3] at h; cases h; exact ihs
      rw [if_neg h3] at h
      cases h; exact ihs
  | intConst =>
    intro s r s2 h
    simp only [resolveValueConst] at h
    cases h; exact ⟨Nat.le_refl _, fun _ => rfl⟩
  | nullPtr =>
    intro s r s2 h
    simp only [resolveValueConst] at h
    cases h; exact ⟨Nat.le_refl _, fun _ => rfl⟩
  | undef =>
    intro s r s2 h
    simp only [resolveValueConst] at h
    cases h; exact ⟨Nat.le_refl _, fun _ => rfl⟩
  | globalVal g =>
    intro s r s2 h
    simp only [resolveValueConst] at h
    cases h; exact ⟨Nat.le_refl _, fun _ => rfl⟩
  | intToPtr =>
    intro s r s2 h
    simp only [resolveValueConst] at h
    cases h; exact ⟨Nat.le_refl _, fun _ => rfl⟩
  | ptrToInt =>
    intro s r s2 h
    simp only [resolveValueConst] at h
    cases h; exact ⟨Nat.le_refl _, fun _ => rfl⟩
  | blockAddr =>
    intro s r s2 h
    simp only [resolveValueConst] at h
    cases h; exact ⟨Nat.le_refl _, fun _ => rfl⟩
  | unknownConst =>
    intro s r s2 h
    simp only [resolveValueConst] at h
    cases h

/-- A change-free resolution transports along a state extension. -/
theorem resolveValueConst_stable :
    ∀ (c : ConstV) (s1 s2 : NFState ConstV) (r : Nat),
      resolveValueConst s1 c = some (r, s1) → ConstExt s1 s2 →
      resolveValueConst s2 c = some (r, s2) := by
  intro c
  induction c with
  | gep base f ih =>
    intro s1 s2 r h hext
    simp only [resolveValueConst] at h ⊢
    cases hb : resolveValueConst s1 base with
    | none => rw [hb] at h; cases h
    | some p =>
      obtain ⟨bn, sb⟩ := p
      rw [hb] at h
      dsimp only at h
      by_cases h1 : bn = InvalidIndex
      · rw [if_pos h1] at h; cases h
      rw [if_neg h1] at h
      by_cases h2 : bn = NullObjectIndex
      · rw [if_pos h2] at h
        have hpair := Option.some.inj h
        have hsb : sb = s1 := congrArg Prod.snd hpair
        have hr : NullPtrIndex = r := congrArg Prod.fst hpair
        subst hsb
        subst hr
        rw [ih sb s2 bn hb hext]
        dsimp only
        rw [if_neg h1, if_pos h2]
      rw [if_neg h2] at h
      by_cases h3 : bn = UniversalObjIndex
      · rw [if_pos h3] at h
        have hpair := Option.some.inj h
        have hsb : sb = s1 := congrArg Prod.snd hpair
        have hr : UniversalPtrIndex = r := congrArg Prod.fst hpair
        subst hsb
        subst hr
        rw [ih sb s2 bn hb hext]
        dsimp only
        rw [if_neg h1, if_neg h2, if_pos h3]
      rw [if_neg h3] at h
      by_cases h4 : f = 0
      · rw [if_pos h4] at h
        have hpair := Option.some.inj h
        have hsb : sb = s1 := congrArg Prod.snd hpair
        have hr : bn = r := congrArg Prod.fst hpair
        subst hsb
        subst hr
        rw [ih sb s2 bn hb hext]
        dsimp only
        rw [if_neg h1, if_neg h2, if_neg h3, if_pos h4]
      rw [if_neg h4] at h
      cases hg : alookup sb.gepMap (bn, f) with
      | some idx =>
        rw [hg] at h
        have hpair := Option.some.inj h
        have hsb : sb = s1 := congrArg Prod.snd hpair
        have hr : idx = r := congrArg Prod.fst hpair
        subst hsb
        subst hr
        rw [ih sb s2 bn hb hext]
        dsimp only
        rw [if_neg h1, if_neg h2, if_neg h3, if_neg h4]
        rw [hext.2 (bn, f) idx hg]
      | none =>
        rw [hg] at h
        cases hcv : sb.createValueNode (some (ConstV.gep base f)) with
        | none => rw [hcv] at h; cases h
        | some q =>
          obtain ⟨idx, sc⟩ := q
          rw [hcv] at h
          exfalso
          have hpair := Option.some.inj h
          have hfin := congrArg Prod.snd hpair
          obtain ⟨hidx, hnone, hnodes, hvm, hgm, hgnm⟩ := createValueNode_some_shape hcv
          have hgrow := (resolveValueConst_growth base s1 bn sb hb).1
          have hlen : s1.nodes.length = sc.nodes.length :=
            congrArg (fun st => st.nodes.length) hfin.symm
          have hsc : sc.nodes.length = sb.nodes.length + 1 := by
            rw [hnodes]; simp
          omega
  | bitcast src ih =>
    intro s1 s2 r h hext
    simp only [resolveValueConst] at h ⊢
    rw [bitcast_inner_eq] at h
    rw [bitcast_inner_eq]
    cases hs : resolveValueConst s1 src with
    | none => rw [hs] at h; cases h
    | some p =>
      obtain ⟨sn, ss⟩ := p
      rw [hs] at h
      dsimp only at h
      by_cases h2 : sn = NullObjectIndex
      · rw [if_pos h2] at h
        have hpair := Option.some.inj h
        have hss : ss = s1 := congrArg Prod.snd hpair
        have hr : NullPtrIndex = r := congrArg Prod.fst hpair
        subst hss
        subst hr
        rw [ih ss s2 sn hs hext]
        dsimp only
        rw [if_pos h2]
      rw [if_neg h2] at h
      by_cases h3 : sn = UniversalObjIndex
      · rw [if_pos h3] at h
        have hpair := Option.some.inj h
        have hss : ss = s1 := congrArg Prod.snd hpair
        have hr : UniversalPtrIndex = r := congrArg Prod.fst hpair
        subst hss
        subst hr
        rw [ih ss s2 sn hs hext]
        dsimp only
        rw [if_neg h2, if_pos h3]
      rw [if_neg h3] at h
      have hpair := Option.some.inj h
      have hss : ss = s1 := congrArg Prod.snd hpair
      have hr : sn = r := congrArg Prod.fst hpair
      subst hss
      subst hr
      rw [ih ss s2 sn hs hext]
      dsimp only
      rw [if_neg h2, if_neg h3]
  | intConst =>
    intro s1 s2 r h hext
    simp only [resolveValueConst] at h ⊢
    cases h; rfl
  | nullPtr =>
    intro s1 s2 r h hext
    simp only [resolveValueConst] at h ⊢
    cases h; rfl
  | undef =>
    intro s1 s2 r h hext
    simp only [resolveValueConst] at h ⊢
    cases h; rfl
  | globalVal g =>
    intro s1 s2 r h hext
    simp only [resolveValueConst] at h ⊢
    cases h
    rw [globalValueNode, globalValueNode, hext.1 g]
  | intToPtr =>
    intro s1 s2 r h hext
    simp only [resolveValueConst] at h ⊢
    cases h; rfl
  | ptrToInt =>
    intro s1 s2 r h hext
    simp only [resolveValueConst] at h ⊢
    cases h; rfl
  | blockAddr =>
    intro s1 s2 r h hext
    simp only [resolveValueConst] at h ⊢
    cases h; rfl
  | unknownConst =>
    intro s1 s2 r h hext
    simp only [resolveValueConst] at h
    cases h

/-- Re-resolving a constant in the state a successful resolution produced
returns the same node index without touching the state. -/
theorem resolveValueConst_idem :
    ∀ (c : ConstV) (s : NFState ConstV) (r : Nat) (s2 : NFState ConstV),
      resolveValueConst s c = some (r, s2) →
      resolveValueConst s2 c = some (r, s2) := by
  intro c
  induction c with
  | gep base f ih =>
    intro s r s2 h
    simp only [resolveValueConst] at h
    cases hb : resolveValueConst s base with
    | none => rw [hb] at h; cases h
    | some p =>
      obtain ⟨bn, sb⟩ := p
      rw [hb] at h
      dsimp only at h
      have ihb := ih s bn sb hb
      by_cases h1 : bn = InvalidIndex
      · rw [if_pos h1] at h; cases h
      rw [if_neg h1] at h
      by_cases h2 : bn = NullObjectIndex
      · rw [if_pos h2] at h
        have hpair := Option.some.inj h
        have hss : sb = s2 := congrArg Prod.snd hpair
        have hr : NullPtrIndex = r := congrArg Prod.fst hpair
        subst hss
        subst hr
        simp only [resolveValueConst]
        rw [ihb]
        dsimp only
        rw [if_neg h1, if_pos h2]
      rw [if_neg h2] at h
      by_cases h3 : bn = UniversalObjIndex
      · rw [if_pos h3] at h
        have hpair := Option.some.inj h
        have hss : sb = s2 := congrArg Prod.snd hpair
        have hr : UniversalPtrIndex = r := congrArg Prod.fst hpair
        subst hss
        subst hr
        simp only [resolveValueConst]
        rw [ihb]
        dsimp only
        rw [if_neg h1, if_neg h2, if_pos h3]
      rw [if_neg h3] at h
      by_cases h4 : f = 0
      · rw [if_pos h4] at h
        have hpair := Option.some.inj h
        have hss : sb = s2 := congrArg Prod.snd hpair
        have hr : bn = r := congrArg Prod.fst hpair
        subst hss
        subst hr
        simp only [resolveValueConst]
        rw [ihb]
        dsimp only
        rw [if_neg h1, if_neg h2, if_neg h3, if_pos h4]
      rw [if_neg h4] at h
      cases hg : alookup sb.gepMap (bn, f) with
      | some idx =>
        rw [hg] at h
        have hpair := Option.some.inj h
        have hss : sb = s2 := congrArg Prod.snd hpair
        have hr : idx = r := congrArg Prod.fst hpair
        subst hss
        subst hr
        simp only [resolveValueConst]
        rw [ihb]
        dsimp only
        rw [if_neg h1, if_neg h2, if_neg h3, if_neg h4]
        rw [hg]
      | none =>
        rw [hg] at h
        cases hcv : sb.createValueNode (some (ConstV.gep base f)) with
        | none => rw [hcv] at h; cases h
        | some q =>
          obtain ⟨idx, sc⟩ := q
          rw [hcv] at h
          obtain ⟨hidx, hnone, hnodes, hvm, hgm, hgnm⟩ := createValueNode_some_shape hcv
          have hpair := Option.some.inj h
          injection hpair with hr hfin
          subst hr
          have hext : ConstExt sb s2 := by
            rw [← hfin]
            constructor
            · intro g
              show alookup sc.valueNodeMap (ConstV.globalVal g)
                = alookup sb.valueNodeMap (ConstV.globalVal g)
              rw [hvm]
              exact alookup_cons_ne _ _ _ _ (by simp)
            · intro k v hkv
              show alookup (((bn, f), idx) :: sc.gepMap) k = some v
              rw [hgm]
              by_cases hk : k = (bn, f)
              · rw [hk, hg] at hkv; cases hkv
              · rw [alookup_cons_ne _ _ _ _ hk]; exact hkv
          have hbase2 : resolveValueConst s2 base = some (bn, s2) :=
            resolveValueConst_stable base sb s2 bn ihb hext
          simp only [resolveValueConst]
          rw [hbase2]
          dsimp only
          rw [if_neg h1, if_neg h2, if_neg h3, if_neg h4]
          have hgm2 : alookup s2.gepMap (bn, f) = some idx := by
            rw [← hfin]
            show alookup (((bn, f), idx) :: sc.gepMap) (bn, f) = some idx
            exact alookup_cons_self _ _ _
          rw [hgm2]
  | bitcast src ih =>
    intro s r s2 h
    simp only [resolveValueConst] at h
    rw [bitcast_inner_eq] at h
    cases hs : resolveValueConst s src with
    | none => rw [hs] at h; cases h
    | some p =>
      obtain ⟨sn, ss⟩ := p
      rw [hs] at h
      dsimp only at h
      have ihs := ih s sn ss hs
      by_cases h2 : sn = NullObjectIndex
      · rw [if_pos h2] at h
        have hpair := Option.some.inj h
        have hss : ss = s2 := congrArg Prod.snd hpair
        have hr : NullPtrIndex = r := congrArg Prod.fst hpair
        subst hss
        subst hr
        simp only [resolveValueConst]
        rw [bitcast_inner_eq, ihs]
        dsimp only
        rw [if_pos h2]
      rw [if_neg h2] at h
      by_cases h3 : sn = UniversalObjIndex
      · rw [if_pos h3] at h
        have hpair := Option.some.inj h
        have hss : ss = s2 := congrArg Prod.snd hpair
        have hr : UniversalPtrIndex = r := congrArg Prod.fst hpair
        subst hss
        subst hr
        simp only [resolveValueConst]
        rw [bitcast_inner_eq, ihs]
        dsimp only
        rw [if_neg h2, if_pos h3]
      rw [if_neg h3] at h
      have hpair := Option.some.inj h
      have hss : ss = s2 := congrArg Prod.snd hpair
      have hr : sn = r := congrArg Prod.fst hpair
      subst hss
      subst hr
      simp only [resolveValueConst]
      rw [bitcast_inner_eq, ihs]
      dsimp only
      rw [if_neg h2, if_neg h3]
  | intConst =>
    intro s r s2 h
    simp only [resolveValueConst] at h
    cases h; rfl
  | nullPtr =>
    intro s r s2 h
    simp only [resolveValueConst] at h
    cases h; rfl
  | undef =>
    intro s r s2 h
    simp only [resolveValueConst] at h
    cases h; rfl
  | globalVal g =>
    intro s r s2 h
    simp only [resolveValueConst] at h
    cases h; rfl
  | intToPtr =>
    intro s r s2 h
    simp only [resolveValueConst] at h
    cases h; rfl
  | ptrToInt =>
    intro s r s2 h
    simp only [resolveValueConst] at h
    cases h; rfl
  | blockAddr =>
    intro s r s2 h
    simp only [resolveValueConst] at h
    cases h; rfl
  | unknownConst =>
    intro s r s2 h
    simp only [resolveValueConst] at h
    cases h

/-- C7: resolving a constant GEP expression with the same base and nonzero
field offset a second time through getValueNodeForConstant returns the
identical node index returned the first time and allocates no duplicate node:
the state, and in particular the node table, is unchanged by the second
resolution. -/
theorem gep_memoization (s s1 : NFState ConstV) (b : ConstV) (f : Nat) (i : Nat)
    (h : resolveValueConst s (ConstV.gep b f) = some (i, s1)) :
    resolveValueConst s1 (ConstV.gep b f) = some (i, s1)
  ∧ (resolveValueConst s1 (ConstV.gep b f)).map (fun p => p.2.numNodes)
      = some s1.numNodes := by
  have hidem := resolveValueConst_idem (ConstV.gep b f) s i s1 h
  exact ⟨hidem, by rw [hidem]; rfl⟩

/-- C7 witness: a concrete GEP constant on global 0 at field 2, resolved once
from a state where the global has node 9 (allocating node 5), then resolved
again with no further allocation. -/
theorem gep_memoization_witness :
    resolveValueConst memoWitnessState (ConstV.gep (ConstV.globalVal 0) 2)
      = some (5, memoWitnessState) :=
  (gep_memoization memoWitnessBase memoWitnessState (ConstV.globalVal 0) 2 5
    (by decide)).1

/-- C4 witness: an allocator call returning an int pointer with literal size
argument 3, widening the type-derived single element to a 3-node chain. -/
theorem heap_allocation_literal_size_witness :
    heapWitnessState.numNodes = (NFState.initState Nat).numNodes + 3
  ∧ NFState.getObjectSize heapWitnessState (NFState.initState Nat).numNodes = 3 :=
  heap_allocation_literal_size
    (show heapSizing 5 (.int 4) [] = some (0, 1, false, none) by decide)
    (by decide) (by decide)
    (show alookup (NFState.initState Nat).objNodeMap 0 = none by decide)
    (show createNodeForHeapObject 5 (NFState.initState Nat) 0 (.int 4) []
        (some (some 3)) 7 = some heapWitnessState by decide)

end KA
